import Mathlib

/-!
Verification development for `scripts/prepare_release_docs.py`, a release-docs
synchronization tool.  The Python source is shallowly embedded over `List Char`
(Python `str` values are sequences of code points; Lean `String.data` provides
the same view).  Regular expressions in the source are fixed-shape patterns;
each is embedded as the deterministic matcher it denotes, following Python `re`
semantics (leftmost match, greedy `[^x]*` runs followed by literals, non-greedy
`.*?` as shortest gap before a literal, `^`/`$` in multiline mode anchored at
positions following `\n` / preceding `\n`).
-/

/-- Python `str.isspace` character class (used by `str.strip`). -/
def pyIsSpace (c : Char) : Bool :=
  decide ((9 ≤ c.toNat ∧ c.toNat ≤ 13) ∨ (28 ≤ c.toNat ∧ c.toNat ≤ 31) ∨ c.toNat = 32 ∨
    c.toNat = 133 ∨ c.toNat = 160 ∨ c.toNat = 5760 ∨ (8192 ≤ c.toNat ∧ c.toNat ≤ 8202) ∨
    c.toNat = 8232 ∨ c.toNat = 8233 ∨ c.toNat = 8239 ∨ c.toNat = 8287 ∨ c.toNat = 12288)

/-- Python `str.lstrip()`. -/
def pyLstrip (l : List Char) : List Char := l.dropWhile pyIsSpace

/-- Python `str.rstrip()`. -/
def pyRstrip (l : List Char) : List Char := ((l.reverse).dropWhile pyIsSpace).reverse

/-- Python `str.strip()`. -/
def pyStrip (l : List Char) : List Char := pyRstrip (pyLstrip l)

/-- Python `str.splitlines` line-boundary characters (besides the `\r\n` pair). -/
def pyIsLineBreak (c : Char) : Bool :=
  decide (c.toNat = 10 ∨ c.toNat = 11 ∨ c.toNat = 12 ∨ c.toNat = 13 ∨
    (28 ≤ c.toNat ∧ c.toNat ≤ 30) ∨ c.toNat = 133 ∨ c.toNat = 8232 ∨ c.toNat = 8233)

/-- Worker for `pySplitlines`; `acc` is the current line, reversed. -/
def pySplitlinesGo : List Char → List Char → List (List Char)
  | [], acc => [acc.reverse]
  | '\r' :: '\n' :: [], acc => [acc.reverse]
  | '\r' :: '\n' :: c :: r, acc => acc.reverse :: pySplitlinesGo (c :: r) []
  | c :: r, acc =>
    if pyIsLineBreak c then
      match r with
      | [] => [acc.reverse]
      | _ => acc.reverse :: pySplitlinesGo r []
    else pySplitlinesGo r (c :: acc)

/-- Python `str.splitlines()`. -/
def pySplitlines : List Char → List (List Char)
  | [] => []
  | c :: r => pySplitlinesGo (c :: r) []

/-- ASCII decimal digit, the `\d` class of the source's patterns. -/
def isDigitChar (c : Char) : Bool := decide ('0' ≤ c ∧ c ≤ '9')

/-- Consume a literal; return the remainder on success. -/
def consumeLit (pat l : List Char) : Option (List Char) :=
  if pat.isPrefixOf l then some (l.drop pat.length) else none

/-- Consume exactly `n` decimal digits. -/
def consumeDigits : Nat → List Char → Option (List Char)
  | 0, l => some l
  | _ + 1, [] => none
  | n + 1, c :: r => if isDigitChar c then consumeDigits n r else none

/-- Consume `\d{4}-\d{2}-\d{2}`. -/
def consumeDate (l : List Char) : Option (List Char) :=
  match consumeDigits 4 l with
  | none => none
  | some r1 =>
    match consumeLit ['-'] r1 with
    | none => none
    | some r2 =>
      match consumeDigits 2 r2 with
      | none => none
      | some r3 =>
        match consumeLit ['-'] r3 with
        | none => none
        | some r4 => consumeDigits 2 r4

/-- Multiline `$`: holds at end of string or right before a newline. -/
def atLineEnd : List Char → Bool
  | [] => true
  | c :: _ => decide (c = '\n')

/-- Index of the first occurrence of `pat` (Python `str.find` / `in`). -/
def findSub (pat : List Char) : List Char → Option Nat
  | [] => if pat.isPrefixOf ([] : List Char) then some 0 else none
  | c :: r => if pat.isPrefixOf (c :: r) then some 0 else (findSub pat r).map (· + 1)

/-- Python `str.index(pat, start)`. -/
def findSubFrom (pat : List Char) (start : Nat) (l : List Char) : Option Nat :=
  (findSub pat (l.drop start)).map (· + start)

/-- Leftmost position that is a line start (re.M `^`) where `m` matches;
returns the match payload.  The flag records whether the current position is a
line start. -/
def scanLineStart {α : Type} (m : List Char → Option α) : Bool → List Char → Option α
  | b, [] => if b then m [] else none
  | b, c :: r =>
    match (if b then m (c :: r) else none) with
    | some a => some a
    | none => scanLineStart m (decide (c = '\n')) r

/-- Index of the leftmost line-start position where `m` holds. -/
def scanLineStartIdx (m : List Char → Bool) : Bool → List Char → Option Nat
  | b, [] => if b && m [] then some 0 else none
  | b, c :: r =>
    if b && m (c :: r) then some 0
    else (scanLineStartIdx m (decide (c = '\n')) r).map (· + 1)

/-- Whether some line-start position satisfies `m` (an `re.M` anchored search). -/
def existsLineStart (m : List Char → Bool) : Bool → List Char → Bool
  | b, [] => b && m []
  | b, c :: r => (b && m (c :: r)) || existsLineStart m (decide (c = '\n')) r

/-- Python string `<` (lexicographic by code point). -/
def strLtB : List Char → List Char → Bool
  | [], [] => false
  | [], _ :: _ => true
  | _ :: _, [] => false
  | a :: as, b :: bs => decide (a < b) || (a == b && strLtB as bs)

/-- `normalize_tag`: trim, reject empty, prepend `v` when absent. -/
def normalize_tag (raw : String) : Except String String :=
  let r := pyStrip raw.data
  if r = [] then .error "Tag cannot be empty."
  else if "v".data.isPrefixOf r then .ok (String.mk r) else .ok (String.mk ('v' :: r))

/-- Matcher for `## \[<tag>\] - \d{4}-\d{2}-\d{2}$` at the current position. -/
def changelogHeadingAt (tag l : List Char) : Bool :=
  match consumeLit ("## [".data ++ tag ++ "] - ".data) l with
  | none => false
  | some r =>
    match consumeDate r with
    | none => false
    | some r2 => atLineEnd r2

/-- `has_changelog_section`. -/
def has_changelog_section (changelog tag : String) : Bool :=
  existsLineStart (changelogHeadingAt tag.data) true changelog.data

/-- The templated section built by `add_changelog_section`. -/
def changelogTemplate (tag date : String) : String :=
  "## [" ++ tag ++ "] - " ++ date ++ "\n\n" ++
  "### Added\n" ++ "- TODO\n\n" ++ "### Improved\n" ++ "- TODO\n\n" ++ "### Fixed\n" ++ "- TODO\n\n"

/-- `add_changelog_section`: insert the template before the first `^## \[`
heading, or append after `rstrip` when no heading exists. -/
def add_changelog_section (changelog tag date : String) : String :=
  let template := changelogTemplate tag date
  match scanLineStartIdx (List.isPrefixOf "## [".data) true changelog.data with
  | none => String.mk (pyRstrip changelog.data) ++ "\n\n" ++ template
  | some idx => String.mk (changelog.data.take idx) ++ template ++ String.mk (changelog.data.drop idx)

/-- The non-greedy body of an extracted section: shortest run ending at a
line start followed by `## [`, or at end of document. -/
def bodyTake (stop : List Char) : Bool → List Char → List Char
  | _, [] => []
  | b, c :: r =>
    if b && stop.isPrefixOf (c :: r) then []
    else c :: bodyTake stop (decide (c = '\n')) r

/-- Matcher for one section of `extract_changelog_section` at the current
position: heading line `## [<tag>] - <anything>` terminated by a newline, then
the body up to the next heading or end of document. -/
def extractSectionAt (tag l : List Char) : Option (List Char) :=
  match consumeLit ("## [".data ++ tag ++ "] - ".data) l with
  | none => none
  | some r =>
    match r.dropWhile (fun c => decide (c ≠ '\n')) with
    | '\n' :: body => some (bodyTake "## [".data true body)
    | _ => none

/-- `extract_changelog_section`; fails when the tag has no heading. -/
def extract_changelog_section (changelog tag : String) : Except String String :=
  match scanLineStart (extractSectionAt tag.data) true changelog.data with
  | some body => .ok (String.mk (pyStrip body))
  | none => .error ("Could not find CHANGELOG section for " ++ tag)

/-- `summarize_section`: stripped lines starting with `- `, capped to `limit`,
with a fallback bullet when none exist. -/
def summarize_section (section_body : String) (limit : Nat) : List String :=
  let bullets := (pySplitlines section_body.data).filterMap (fun line =>
    let stripped := pyStrip line
    if "- ".data.isPrefixOf stripped then some (String.mk stripped) else none)
  if bullets.isEmpty then ["- See CHANGELOG.md entry."] else bullets.take limit

/-- Matcher for `## \[(v[^\]]+)\] - \d{4}-\d{2}-\d{2}$` at the current
position, returning the captured tag and the remainder after the match. -/
def releaseHeadingAt (l : List Char) : Option (List Char × List Char) :=
  match consumeLit "## [".data l with
  | none => none
  | some r1 =>
    match r1 with
    | 'v' :: r2 =>
      let grp := r2.takeWhile (fun c => decide (c ≠ ']'))
      if grp.isEmpty then none
      else
        match consumeLit "] - ".data (r2.drop grp.length) with
        | none => none
        | some r3 =>
          match consumeDate r3 with
          | none => none
          | some r4 => if atLineEnd r4 then some ('v' :: grp, r4) else none
    | _ => none

/-- `re.findall` over the heading pattern: leftmost non-overlapping matches in
document order; fuel is the remaining length (each step consumes a character
or a nonempty match). -/
def findHeadingsGo : Nat → Bool → List Char → List String
  | 0, _, _ => []
  | _ + 1, _, [] => []
  | fuel + 1, b, c :: r =>
    match (if b then releaseHeadingAt (c :: r) else none) with
    | some (tagl, rest) => String.mk tagl :: findHeadingsGo fuel false rest
    | none => findHeadingsGo fuel (decide (c = '\n')) r

/-- `extract_release_headings`. -/
def extract_release_headings (changelog : String) : List String :=
  findHeadingsGo changelog.data.length true changelog.data

/-- `is_prerelease_tag`: Python `"-" in tag`. -/
def is_prerelease_tag (tag : String) : Bool := tag.data.contains '-'

/-- The candidate loop of `previous_release_tag`: skip pre-release candidates
when the given tag is stable (`tagPre = false`). -/
def prevScan (tagPre : Bool) : List String → Option String
  | [] => none
  | c :: r => if !tagPre && is_prerelease_tag c then prevScan tagPre r else some c

/-- `previous_release_tag`. -/
def previous_release_tag (changelog tag : String) : Option String :=
  let headings := extract_release_headings changelog
  if tag ∈ headings then
    prevScan (is_prerelease_tag tag) (headings.drop (headings.indexOf tag + 1))
  else none

/-- Replace every occurrence of the character `c` by `rep`
(Python `str.replace` with a one-character needle). -/
def replaceChar (c : Char) (rep : List Char) (l : List Char) : List Char :=
  (l.map (fun x => if x = c then rep else [x])).flatten

/-- `swift_string`: double backslashes, then escape double quotes. -/
def swift_string (value : String) : String :=
  String.mk (replaceChar '"' ['\\', '"'] (replaceChar '\\' ['\\', '\\'] value.data))

/-- Python `"sep".join(items)`. -/
def joinWithSep (sep : String) : List String → String
  | [] => ""
  | [s] => s
  | s :: r => s ++ sep ++ joinWithSep sep r

/-- Expansion of a `re.sub` replacement template, restricted to the escape
sequences this program can produce: the templates built by
`update_welcome_tour_release_page` contain backslashes only in the pairs
`\\` (from an escaped backslash, expanded to a single backslash) and `\"`
(from an escaped quote, kept verbatim since `"` is not an ASCII letter).
Group references and letter escapes cannot occur in them. -/
def substTemplate : List Char → List Char
  | [] => []
  | '\\' :: '\\' :: r => '\\' :: substTemplate r
  | '\\' :: c :: r => '\\' :: c :: substTemplate r
  | c :: r => c :: substTemplate r

/-- The fixed literal tail of the Welcome Tour block pattern
(everything after the non-greedy bullet region). -/
def tourPageFixedTail : String :=
  "            ],\n            iconName: \"sparkles.rectangle.stack\",\n            colors: [Color(red: 0.40, green: 0.28, blue: 0.90), Color(red: 0.96, green: 0.46, blue: 0.55)],\n            toolbarItems: []\n        ),"

/-- The replacement block built by `update_welcome_tour_release_page`. -/
def tourPageNewBlock (tag : String) (bullets : List String) (prev_tag : Option String) : String :=
  let bullet_lines :=
    if bullets.isEmpty then ["                \"See CHANGELOG.md for details\""]
    else bullets.map (fun bullet =>
      "                \"" ++ swift_string (String.mk (bullet.data.drop 2)) ++ "\"")
  let subtitle :=
    match prev_tag with
    | some p =>
      if p = "" then "Highlights for " ++ tag ++ ":"
      else "Major changes since " ++ p ++ ":"
    | none => "Highlights for " ++ tag ++ ":"
  "        TourPage(\n            title: \"What’s New in This Release\",\n            subtitle: \"" ++
    swift_string subtitle ++ "\",\n            bullets: [\n" ++
    joinWithSep ",\n" bullet_lines ++ "\n" ++ tourPageFixedTail

/-- Matcher for the fixed Welcome Tour block shape at the current position:
`TourPage(` line, a title line containing `What...This Release`, a subtitle
line, the bullets opener, a non-greedy gap, then the fixed literal tail.
Returns the remainder after the match. -/
def tourPageMatchAt (l : List Char) : Option (List Char) :=
  match consumeLit "        TourPage(\n            title: \"What".data l with
  | none => none
  | some r1 =>
    let lineRest := r1.takeWhile (fun c => decide (c ≠ '\n'))
    if !(List.isSuffixOf "This Release\",".data lineRest) then none
    else
      match r1.drop lineRest.length with
      | '\n' :: r2 =>
        match consumeLit "            subtitle: ".data r2 with
        | none => none
        | some r3 =>
          match r3.dropWhile (fun c => decide (c ≠ '\n')) with
          | '\n' :: r4 =>
            match consumeLit "            bullets: [\n".data r4 with
            | none => none
            | some r5 =>
              match findSub tourPageFixedTail.data r5 with
              | none => none
              | some k => some ((r5.drop k).drop tourPageFixedTail.data.length)
          | _ => none
      | _ => none

/-- Leftmost match of the Welcome Tour block pattern: start index and
remainder after the match. -/
def tourPageSearch : List Char → Option (Nat × List Char)
  | [] => none
  | c :: r =>
    match tourPageMatchAt (c :: r) with
    | some rest => some (0, rest)
    | none => (tourPageSearch r).map (fun p => (p.1 + 1, p.2))

/-- `update_welcome_tour_release_page`: fail when the block shape is absent,
else substitute the first match with the new block (a `re.sub` with
`count=1`, whose replacement string undergoes template expansion). -/
def update_welcome_tour_release_page (swift_source tag : String) (bullets : List String)
    (prev_tag : Option String) : Except String String :=
  let new_block := tourPageNewBlock tag bullets prev_tag
  match tourPageSearch swift_source.data with
  | none => .error "Could not find Welcome Tour Whats New page block to update."
  | some (i, rest) =>
    .ok (String.mk (swift_source.data.take i ++ substTemplate new_block.data ++ rest))

/-- Rest of the input from the first line-start position where `stop` begins
(the `(?=^### |\Z)` lookahead target of the summary-block pattern). -/
def dropUntilStop (stop : List Char) : Bool → List Char → List Char
  | _, [] => []
  | b, c :: r =>
    if b && stop.isPrefixOf (c :: r) then c :: r
    else dropUntilStop stop (decide (c = '\n')) r

/-- Matcher for one `### <tag> (summary)` block at the current position,
returning the remainder after the (non-greedy) block body. -/
def summaryBlockAt (tag l : List Char) : Option (List Char) :=
  match consumeLit ("### ".data ++ tag ++ " (summary)\n\n".data) l with
  | none => none
  | some r => some (dropUntilStop "### ".data true r)

/-- The global `re.sub(..., "")` removing every summary block for `tag`;
fuel is the remaining length (every step consumes at least one character). -/
def removeTagSummaries (tag : List Char) : Nat → Bool → List Char → List Char
  | 0, _, l => l
  | _ + 1, _, [] => []
  | fuel + 1, b, c :: r =>
    match (if b then summaryBlockAt tag (c :: r) else none) with
    | some rest => removeTagSummaries tag fuel true rest
    | none => c :: removeTagSummaries tag fuel (decide (c = '\n')) r

/-- The fixed README anchor `## Changelog` with its blank line. -/
def readmeChangelogHeader : String := "## Changelog\n\n"

/-- `upsert_readme_summary`: remove any existing summary block for the tag,
then insert a fresh block right after the `## Changelog` header. -/
def upsert_readme_summary (readme tag : String) (bullets : List String) : Except String String :=
  let block := "### " ++ tag ++ " (summary)\n\n" ++ joinWithSep "\n" bullets ++ "\n\n"
  match findSub readmeChangelogHeader.data readme.data with
  | none => .error "README missing Changelog section"
  | some _ =>
    let cleaned := removeTagSummaries tag.data readme.data.length true readme.data
    match findSub readmeChangelogHeader.data cleaned with
    | none => .error "substring not found"
    | some i =>
      let insert_at := i + readmeChangelogHeader.data.length
      .ok (String.mk (cleaned.take insert_at ++ block.data ++ cleaned.drop insert_at))

/-- The Version Key tuple `(major, minor, patch, stability_rank, prerelease)`. -/
abbrev VersionKey := Nat × Nat × Nat × Nat × String

/-- Python `int` of a nonempty decimal-digit run. -/
def digitsVal (l : List Char) : Nat := l.foldl (fun a c => a * 10 + (c.toNat - 48)) 0

/-- The character class `[0-9A-Za-z.-]` of the version pattern. -/
def preClassChar (c : Char) : Bool :=
  isDigitChar c || decide ('A' ≤ c ∧ c ≤ 'Z') || decide ('a' ≤ c ∧ c ≤ 'z') ||
    decide (c = '.') || decide (c = '-')

/-- `re.fullmatch` of `v(\d+)\.(\d+)\.(\d+)(?:-([0-9A-Za-z.-]+))?`. -/
def versionNumsMatch (l : List Char) : Option (Nat × Nat × Nat × Option (List Char)) :=
  match l with
  | 'v' :: r1 =>
    let d1 := r1.takeWhile isDigitChar
    if d1.isEmpty then none else
    match r1.drop d1.length with
    | '.' :: r2 =>
      let d2 := r2.takeWhile isDigitChar
      if d2.isEmpty then none else
      match r2.drop d2.length with
      | '.' :: r3 =>
        let d3 := r3.takeWhile isDigitChar
        if d3.isEmpty then none else
        match r3.drop d3.length with
        | [] => some (digitsVal d1, digitsVal d2, digitsVal d3, none)
        | '-' :: pre =>
          if !pre.isEmpty && pre.all preClassChar then
            some (digitsVal d1, digitsVal d2, digitsVal d3, some pre)
          else none
        | _ => none
      | _ => none
    | _ => none
  | _ => none

/-- `parse_version_key`: total; non-matching tags fall back to
`(0, 0, 0, 0, tag)`. -/
def parse_version_key (tag : String) : VersionKey :=
  match versionNumsMatch tag.data with
  | none => (0, 0, 0, 0, tag)
  | some (maj, mino, pat, pre) =>
    match pre with
    | none => (maj, mino, pat, 1, "")
    | some p => (maj, mino, pat, 0, String.mk p)

/-- Python `<` on Version Key tuples (lexicographic; the final component by
code-point string order). -/
def keyLtB (x y : VersionKey) : Bool :=
  decide (x.1 < y.1) || (x.1 == y.1 && (decide (x.2.1 < y.2.1) || (x.2.1 == y.2.1 &&
    (decide (x.2.2.1 < y.2.2.1) || (x.2.2.1 == y.2.2.1 && (decide (x.2.2.2.1 < y.2.2.2.1) ||
    (x.2.2.2.1 == y.2.2.2.1 && strLtB x.2.2.2.2.data y.2.2.2.2.data)))))))

/-- Stable insertion for a descending sort by `parse_version_key`. -/
def insertDesc (a : String) : List String → List String
  | [] => [a]
  | b :: r =>
    if keyLtB (parse_version_key a) (parse_version_key b) then b :: insertDesc a r
    else a :: b :: r

/-- Python `sorted(·, key=parse_version_key, reverse=True)`: a stable
descending sort (ties keep original order). -/
def sortDescByKey : List String → List String
  | [] => []
  | a :: r => insertDesc a (sortDescByKey r)

/-- The deduplication loop of `sorted_latest_tags` (`seen` set as a list). -/
def dedupGo (seen : List String) : List String → List String
  | [] => []
  | t :: r => if t ∈ seen then dedupGo seen r else t :: dedupGo (t :: seen) r

/-- First-occurrence deduplication. -/
def dedupKeepFirst (l : List String) : List String := dedupGo [] l

/-- `sorted_latest_tags`: dedup, sort descending, truncate, and force-include
`ensure_tag` (Python truthiness: `none` and the empty string do nothing). -/
def sorted_latest_tags (tags : List String) (limit : Nat) (ensure_tag : Option String) : List String :=
  let unique := dedupKeepFirst tags
  let ordered := sortDescByKey unique
  let top := ordered.take limit
  match ensure_tag with
  | none => top
  | some e => if e ≠ "" ∧ e ∉ top then e :: top.take (limit - 1) else top

/-- The fixed README anchor ending the summary region. -/
def fullHistoryMarker : String := "Full release history:"

/-- The per-tag summary blocks of `rebuild_readme_changelog_summaries`
(each tag's section re-extracted and re-summarized). -/
def buildBlocks (changelog : String) : List String → Except String (List String)
  | [] => .ok []
  | t :: r =>
    match extract_changelog_section changelog t with
    | .error e => .error e
    | .ok sec =>
      let bullets := summarize_section sec 5
      match buildBlocks changelog r with
      | .error e => .error e
      | .ok rest =>
        .ok (("### " ++ t ++ " (summary)\n\n" ++ joinWithSep "\n" bullets ++ "\n") :: rest)

/-- `rebuild_readme_changelog_summaries`: regenerate the region between the
`## Changelog` header and the `Full release history:` marker from scratch. -/
def rebuild_readme_changelog_summaries (readme changelog current_tag : String) (limit : Nat) :
    Except String String :=
  match findSub readmeChangelogHeader.data readme.data with
  | none => .error "README missing Changelog section"
  | some hIdx =>
    match findSub fullHistoryMarker.data readme.data with
    | none => .error "README missing Full release history marker"
    | some _ =>
      let tags := extract_release_headings changelog
      let top_tags := sorted_latest_tags tags limit (some current_tag)
      match buildBlocks changelog top_tags with
      | .error e => .error e
      | .ok blocks =>
        let new_summary_chunk := joinWithSep "\n" blocks ++ "\n"
        let changelog_start := hIdx + readmeChangelogHeader.data.length
        match findSubFrom fullHistoryMarker.data changelog_start readme.data with
        | none => .error "substring not found"
        | some mIdx =>
          .ok (String.mk (readme.data.take changelog_start ++ new_summary_chunk.data ++
            readme.data.drop mIdx))

/-- Split at newline characters (`(?m)^...$` sees exactly these segments). -/
def splitNl : List Char → List (List Char)
  | [] => [[]]
  | c :: r =>
    if c = '\n' then [] :: splitNl r
    else
      match splitNl r with
      | [] => [[c]]
      | l :: ls => (c :: l) :: ls

/-- Inverse of `splitNl`. -/
def joinNl : List (List Char) → List Char
  | [] => []
  | [l] => l
  | l :: ls => l ++ '\n' :: joinNl ls

/-- Whether a whole line matches `^<pre>.*<suf>$` (with `.` not crossing
newlines). -/
def lineHit (pre suf line : List Char) : Bool :=
  pre.isPrefixOf line && List.isSuffixOf suf (line.drop pre.length)

/-- One full-line rule of `update_readme_release_refs`: a line matching
`^<pre>.*<suf>$` is replaced wholesale by `repl`. -/
def lineRule (pre suf repl line : List Char) : List Char :=
  if lineHit pre suf line then repl else line

/-- One multiline `re.sub` pass of `update_readme_release_refs`. -/
def refsPass (pre suf repl : List Char) (s : List Char) : List Char :=
  joinNl ((splitNl s).map (lineRule pre suf repl))

/-- A piece of a parsed `re.sub` replacement template: a literal character,
or a reference to group 0 (the whole match; the four reference-rewrite
patterns contain no other groups, so every other group reference raises). -/
inductive TmplPiece where
  | lit (c : Char)
  | group0

/-- Octal digit. -/
def isOctDigit (c : Char) : Bool := decide ('0' ≤ c ∧ c ≤ '7')

/-- ASCII letter (`re` treats only ASCII letters as escape letters). -/
def isAsciiLetter (c : Char) : Bool :=
  decide (('A' ≤ c ∧ c ≤ 'Z') ∨ ('a' ≤ c ∧ c ≤ 'z'))

/-- Value of an octal digit run. -/
def octVal (l : List Char) : Nat := l.foldl (fun a c => a * 8 + (c.toNat - 48)) 0

/-- Python `re` replacement-template parsing (`parse_template`), for patterns
whose only group is group 0: `\\` collapses; the letter escapes a b f n r t v
become control characters; any other ASCII letter escape is an error;
`\g<digits-with-value-0>` references the whole match and every other
`\g<...>` form is an error (Python raises `re.error` or, for an unknown
well-formed name, `IndexError` — both abort the run); `\0` plus up to two
octal digits and `\ooo` (three octal digits, value at most 0o377) are octal
escapes while every other numeric escape is an invalid group reference; a
backslash before any other character keeps both characters; a trailing
backslash is an error.  The template is parsed before any match is attempted
(errors fire even when nothing matches).  Fuel is the remaining length. -/
def parse_template_go : Nat → List Char → Except String (List TmplPiece)
  | 0, _ => .error "template fuel exhausted"
  | _ + 1, [] => .ok []
  | fuel + 1, c :: r =>
    if c ≠ '\\' then (parse_template_go fuel r).map (fun ps => .lit c :: ps)
    else
      match r with
      | [] => .error "bad escape (end of pattern)"
      | e :: r2 =>
        if e = '\\' then (parse_template_go fuel r2).map (fun ps => .lit '\\' :: ps)
        else if e = 'g' then
          match r2 with
          | '<' :: r3 =>
            let name := r3.takeWhile (fun c => decide (c ≠ '>'))
            match r3.drop name.length with
            | '>' :: r4 =>
              if name.isEmpty then .error "missing group name"
              else if name.all isDigitChar then
                if digitsVal name = 0 then
                  (parse_template_go fuel r4).map (fun ps => .group0 :: ps)
                else .error "invalid group reference"
              else .error "bad or unknown group name"
            | _ => .error "missing group name"
          | _ => .error "missing <"
        else if e = '0' then
          match r2 with
          | d1 :: d2 :: r3 =>
            if isOctDigit d1 && isOctDigit d2 then
              (parse_template_go fuel r3).map (fun ps => .lit (Char.ofNat (octVal [d1, d2])) :: ps)
            else if isOctDigit d1 then
              (parse_template_go fuel (d2 :: r3)).map
                (fun ps => .lit (Char.ofNat (octVal [d1])) :: ps)
            else (parse_template_go fuel r2).map (fun ps => .lit (Char.ofNat 0) :: ps)
          | [d1] =>
            if isOctDigit d1 then .ok [.lit (Char.ofNat (octVal [d1]))]
            else (parse_template_go fuel r2).map (fun ps => .lit (Char.ofNat 0) :: ps)
          | [] => .ok [.lit (Char.ofNat 0)]
        else if isDigitChar e then
          match r2 with
          | d2 :: d3 :: r3 =>
            if isDigitChar d2 then
              if isOctDigit e && isOctDigit d2 && isOctDigit d3 then
                if octVal [e, d2, d3] ≤ 255 then
                  (parse_template_go fuel r3).map
                    (fun ps => .lit (Char.ofNat (octVal [e, d2, d3])) :: ps)
                else .error "octal escape value outside of range 0-0o377"
              else .error "invalid group reference"
            else .error "invalid group reference"
          | _ => .error "invalid group reference"
        else if e = 'a' then (parse_template_go fuel r2).map (fun ps => .lit (Char.ofNat 7) :: ps)
        else if e = 'b' then (parse_template_go fuel r2).map (fun ps => .lit (Char.ofNat 8) :: ps)
        else if e = 'f' then (parse_template_go fuel r2).map (fun ps => .lit (Char.ofNat 12) :: ps)
        else if e = 'n' then (parse_template_go fuel r2).map (fun ps => .lit (Char.ofNat 10) :: ps)
        else if e = 'r' then (parse_template_go fuel r2).map (fun ps => .lit (Char.ofNat 13) :: ps)
        else if e = 't' then (parse_template_go fuel r2).map (fun ps => .lit (Char.ofNat 9) :: ps)
        else if e = 'v' then (parse_template_go fuel r2).map (fun ps => .lit (Char.ofNat 11) :: ps)
        else if isAsciiLetter e then .error "bad escape"
        else (parse_template_go fuel r2).map (fun ps => .lit '\\' :: .lit e :: ps)

/-- Parse a replacement template (fuel is always sufficient: every step
consumes at least one character). -/
def parse_template (l : List Char) : Except String (List TmplPiece) :=
  parse_template_go (l.length + 1) l

/-- Expand a parsed template at a match; group 0 is the matched text. -/
def applyTemplate (pieces : List TmplPiece) (matched : List Char) : List Char :=
  (pieces.map (fun p =>
    match p with
    | .lit c => [c]
    | .group0 => matched)).flatten

/-- One full-line rule with a parsed template: the match of these `^...$`
patterns is the whole line, so group 0 expands to the line itself. -/
def lineRuleT (pre suf : List Char) (pieces : List TmplPiece) (line : List Char) : List Char :=
  if lineHit pre suf line then applyTemplate pieces line else line

/-- One multiline `re.sub` pass with a parsed template. -/
def refsPassT (pre suf : List Char) (pieces : List TmplPiece) (s : List Char) : List Char :=
  joinNl ((splitNl s).map (lineRuleT pre suf pieces))

/-- `update_readme_release_refs`: the four sequential full-line rewrites.
Each pass parses its replacement string as an `re.sub` template (eagerly,
before scanning), then rewrites every matching line; a template parse error
aborts the whole call (the exception propagates out of the function). -/
def update_readme_release_refs (readme tag : String) : Except String String :=
  match parse_template ("> Latest release: **" ++ tag ++ "**").data with
  | .error e => .error e
  | .ok t1 =>
    match parse_template ("- Latest release: **" ++ tag ++ "**").data with
    | .error e => .error e
    | .ok t2 =>
      match parse_template ("- Tag: `" ++ tag ++ "`").data with
      | .error e => .error e
      | .ok t3 =>
        match parse_template ("git rev-parse --verify " ++ tag).data with
        | .error e => .error e
        | .ok t4 =>
          let s1 := refsPassT "> Latest release: **".data "**".data t1 readme.data
          let s2 := refsPassT "- Latest release: **".data "**".data t2 s1
          let s3 := refsPassT "- Tag: `".data "`".data t3 s2
          let s4 := refsPassT "git rev-parse --verify ".data [] t4 s3
          .ok (String.mk s4)

/-- Python `v or d` for an optional string: `None` and the empty string are
falsy and fall back to `d`. -/
def pyOrElse (v : Option String) (d : String) : String :=
  match v with
  | none => d
  | some s => if s = "" then d else s

/-- The three documents the tool reads and (in normal mode) writes. -/
structure ReleaseFiles where
  changelog : String
  readme : String
  welcome : String
deriving DecidableEq

/-- The command surface: tag, optional date override, check flag. -/
structure CliArgs where
  tag : String
  date : Option String
  check : Bool

/-- `main`, as a pure function from arguments, the run date and the on-disk
file contents to an exit code and the resulting file contents (unchanged in
check mode; rewritten in normal mode).  Uncaught exceptions are `.error`. -/
def mainRun (args : CliArgs) (today : String) (files : ReleaseFiles) :
    Except String (Nat × ReleaseFiles) :=
  match normalize_tag args.tag with
  | .error e => .error e
  | .ok tag =>
    let release_date := pyOrElse args.date today
    let original_changelog := files.changelog
    let changelog :=
      if has_changelog_section original_changelog tag then original_changelog
      else add_changelog_section original_changelog tag release_date
    match extract_changelog_section changelog tag with
    | .error e => .error e
    | .ok sec =>
      let bullets := summarize_section sec 5
      match update_readme_release_refs files.readme tag with
      | .error e => .error e
      | .ok readme1 =>
      match upsert_readme_summary readme1 tag bullets with
      | .error e => .error e
      | .ok readme2 =>
        match rebuild_readme_changelog_summaries readme2 changelog tag 3 with
        | .error e => .error e
        | .ok readme3 =>
          let prev_tag := previous_release_tag changelog tag
          match update_welcome_tour_release_page files.welcome tag (bullets.take 4) prev_tag with
          | .error e => .error e
          | .ok welcome2 =>
            if args.check then
              if changelog ≠ files.changelog ∨ readme3 ≠ files.readme ∨ welcome2 ≠ files.welcome then
                .ok (1, files)
              else .ok (0, files)
            else .ok (0, ⟨changelog, readme3, welcome2⟩)

/-- Modelled from the spec (§4.2(c)), for comparison with the source's
`previous_release_tag`: over the heading list, starting just after the given
tag's position, the first candidate not skipped by the rule "skip pre-release
candidates when the given tag itself is stable"; none when the tag is absent. -/
def specPrevRel (headings : List String) (tag : String) : Option String :=
  if tag ∈ headings then
    (headings.drop (headings.indexOf tag + 1)).find?
      (fun c => is_prerelease_tag tag || !is_prerelease_tag c)
  else none

/-- Whether an `Except` result is a success whose value satisfies `p`. -/
def exceptSat {ε α : Type} (p : α → Bool) : Except ε α → Bool
  | .ok a => p a
  | .error _ => false

/-- Exact `\d{4}-\d{2}-\d{2}` shape (an ISO date as the tool expects it). -/
def dateShape (date : String) : Bool :=
  match consumeDate date.data with
  | some [] => true
  | _ => false

/-- The composite per-line action of the four reference-rewrite rules,
applied in source order. -/
def lineStep (tag : String) (line : List Char) : List Char :=
  lineRule "git rev-parse --verify ".data [] ("git rev-parse --verify " ++ tag).data
    (lineRule "- Tag: `".data "`".data ("- Tag: `" ++ tag ++ "`").data
      (lineRule "- Latest release: **".data "**".data ("- Latest release: **" ++ tag ++ "**").data
        (lineRule "> Latest release: **".data "**".data
          ("> Latest release: **" ++ tag ++ "**").data line)))

/-- A changelog sample with the spec's four release headings. -/
def changelogSample : String :=
  "## [v0.4.8] - 2024-04-08\n## [v0.4.7] - 2024-04-07\n## [v0.4.4-beta] - 2024-04-05\n## [v0.4.4] - 2024-04-04\n"

/-- A Welcome Tour block of the fixed shape, with the given subtitle text. -/
def tourBlock (sub : String) : String :=
  "        TourPage(\n            title: \"What’s New in This Release\",\n            subtitle: \"" ++
    sub ++ "\",\n            bullets: [\n                \"old bullet\"\n" ++ tourPageFixedTail

/-- A Swift source sample containing exactly one Welcome Tour block. -/
def tourSourceSample : String :=
  "import SwiftUI\nstruct X \x7b\n" ++ tourBlock "one" ++ "\nmore\n\x7d\n"

/-- A Swift source sample containing two Welcome Tour blocks. -/
def tourSourceTwo : String :=
  "import SwiftUI\nstruct X \x7b\n" ++ tourBlock "one" ++ "\nmid\n" ++ tourBlock "two" ++ "\ntail\n"

/-- A consistent set of sample documents for concrete runs of the tool. -/
def filesSample : ReleaseFiles :=
  ⟨"## [v1.1.0] - 2024-02-02\n\n- a\n- b\n\n## [v1.0.0] - 2024-01-01\n- c\n",
   "# P\n\n> Latest release: **v1.0.0**\n\n## Changelog\n\n### v1.0.0 (summary)\n\n- c\n\nFull release history: x\n",
   tourSourceSample⟩

/-- Sample command line: tag `1.1.0`, explicit date, check mode. -/
def argsSample : CliArgs := ⟨"1.1.0", some "2024-05-05", true⟩

/-- A README sample for the rolling-summary rebuild. -/
def rbReadmeSample : String := "## Changelog\n\nOLD\nFull release history: x"

/-- A one-heading changelog sample for the rolling-summary rebuild. -/
def rbChangelogSample : String := "## [v1.0.0] - 2024-01-02\n- a\n"

/-- The expected rebuild output on the samples above. -/
def rbOutSample : String :=
  "## Changelog\n\n### v1.0.0 (summary)\n\n- a\n\nFull release history: x"

set_option maxRecDepth 20000

/-! ### Basic lemmas about the Python string primitives -/

theorem string_data_mk (l : List Char) : (String.mk l).data = l := rfl

theorem dropWhile_fixed_head {α : Type} {p : α → Bool} {a : α} {l : List α}
    (h : List.dropWhile p (a :: l) = a :: l) : p a = false := by
  by_contra hb
  rw [Bool.not_eq_false] at hb
  rw [List.dropWhile_cons, if_pos hb] at h
  have hlen := congrArg List.length h
  have hle := (List.dropWhile_sublist (l := l) p).length_le
  simp only [List.length_cons] at hlen
  omega

theorem dropWhile_fixed_of_prefix {α : Type} {p : α → Bool} {l l' : List α}
    (h : List.dropWhile p l = l) (hp : l' <+: l) : List.dropWhile p l' = l' := by
  cases l' with
  | nil => rfl
  | cons a t =>
    obtain ⟨s, hs⟩ := hp
    subst hs
    have ha := dropWhile_fixed_head (l := t ++ s) h
    rw [List.dropWhile_cons, if_neg (by simp [ha])]

theorem pyLstrip_idem (l : List Char) : pyLstrip (pyLstrip l) = pyLstrip l := by
  rw [pyLstrip, pyLstrip, List.dropWhile_idempotent]

theorem pyRstrip_idem (l : List Char) : pyRstrip (pyRstrip l) = pyRstrip l := by
  rw [pyRstrip, pyRstrip, List.reverse_reverse, List.dropWhile_idempotent]

theorem pyRstrip_prefix_of (l : List Char) : pyRstrip l <+: l := by
  have hsuf : List.dropWhile pyIsSpace l.reverse <:+ l.reverse := List.dropWhile_suffix _
  have h2 := ( List.reverse_prefix).mpr hsuf
  rwa [List.reverse_reverse] at h2

theorem pyLstrip_of_rstrip {l : List Char} (h : pyLstrip l = l) :
    pyLstrip (pyRstrip l) = pyRstrip l :=
  dropWhile_fixed_of_prefix h (pyRstrip_prefix_of l)

theorem pyStrip_idem (l : List Char) : pyStrip (pyStrip l) = pyStrip l := by
  show pyRstrip (pyLstrip (pyRstrip (pyLstrip l))) = pyRstrip (pyLstrip l)
  rw [pyLstrip_of_rstrip (pyLstrip_idem l), pyRstrip_idem]

theorem pyRstrip_fixed_rev {l : List Char} (h : pyRstrip l = l) :
    List.dropWhile pyIsSpace l.reverse = l.reverse := by
  have h2 := congrArg List.reverse h
  rwa [pyRstrip, List.reverse_reverse] at h2

theorem pyRstrip_cons_of {r : List Char} {v : Char} (h : pyRstrip r = r)
    (hv : pyIsSpace v = false) : pyRstrip (v :: r) = v :: r := by
  have hrev := pyRstrip_fixed_rev h
  rw [pyRstrip, List.reverse_cons]
  cases hr : r.reverse with
  | nil =>
    have hnil : r = [] := by simpa using congrArg List.reverse hr
    subst hnil
    simp [List.dropWhile_cons, hv]
  | cons c t =>
    rw [hr] at hrev
    have hc := dropWhile_fixed_head hrev
    have hall : List.dropWhile pyIsSpace ((c :: t) ++ [v]) = (c :: t) ++ [v] := by
      rw [List.cons_append, List.dropWhile_cons, if_neg (by simp [hc])]
    rw [hall, List.reverse_append, ← hr, List.reverse_reverse]
    rfl

theorem pyStrip_rstrip_self (l : List Char) : pyRstrip (pyStrip l) = pyStrip l := by
  rw [pyStrip, pyRstrip_idem]

/-- C10: tag normalization is idempotent on any input whose trimmed form is
non-empty (phrased via a successful first normalization), and its result
always carries the `v` prefix. -/
theorem c10_normalize_idempotent : ∀ raw t : String, normalize_tag raw = .ok t →
    normalize_tag t = .ok t ∧ "v".data.isPrefixOf t.data = true := by
  intro raw t h
  rw [normalize_tag] at h
  by_cases hr : pyStrip raw.data = []
  · rw [if_pos hr] at h
    exact Except.noConfusion h
  · rw [if_neg hr] at h
    have hsr := pyStrip_idem raw.data
    by_cases hv : "v".data.isPrefixOf (pyStrip raw.data) = true
    · rw [if_pos hv] at h
      have ht : t = String.mk (pyStrip raw.data) := by
        cases h
        rfl
      subst ht
      refine ⟨?_, hv⟩
      rw [normalize_tag, string_data_mk, hsr, if_neg hr, if_pos hv]
    · rw [if_neg hv] at h
      have ht : t = String.mk ('v' :: pyStrip raw.data) := by
        cases h
        rfl
      subst ht
      have hlv : pyLstrip ('v' :: pyStrip raw.data) = 'v' :: pyStrip raw.data := by
        rw [pyLstrip, List.dropWhile_cons, if_neg (by decide)]
      have hrv : pyRstrip ('v' :: pyStrip raw.data) = 'v' :: pyStrip raw.data :=
        pyRstrip_cons_of (pyStrip_rstrip_self raw.data) (by decide)
      have hst : pyStrip ('v' :: pyStrip raw.data) = 'v' :: pyStrip raw.data := by
        rw [pyStrip, hlv, hrv]
      have hpre : "v".data.isPrefixOf ('v' :: pyStrip raw.data) = true := by
        show List.isPrefixOf ['v'] ('v' :: pyStrip raw.data) = true
        simp [List.isPrefixOf]
      constructor
      · rw [normalize_tag, string_data_mk, hst, if_neg (by simp), if_pos hpre]
      · exact hpre

/-- Witness for C10 at the concrete raw tag `" 1.2.3 "`. -/
theorem c10_witness : normalize_tag "v1.2.3" = .ok "v1.2.3" ∧
    "v".data.isPrefixOf "v1.2.3".data = true :=
  c10_normalize_idempotent " 1.2.3 " "v1.2.3" rfl

/-! ### C3: Version Key ordering of non-conforming tags -/

/-- C3 counterexample: the non-matching tag `"zzz"` does not sort below the
matching tag `"v0.0.0-a"`; the fallback key `(0,0,0,0,"zzz")` compares by raw
text against the key `(0,0,0,0,"a")`, and lies above it. -/
theorem c3_counterexample :
    versionNumsMatch "zzz".data = none ∧
    versionNumsMatch "v0.0.0-a".data = some (0, 0, 0, some ['a']) ∧
    keyLtB (parse_version_key "zzz") (parse_version_key "v0.0.0-a") = false ∧
    keyLtB (parse_version_key "v0.0.0-a") (parse_version_key "zzz") = true := by
  refine ⟨rfl, rfl, ?_, ?_⟩ <;> decide

/-- C3 amended: `parse_version_key` is total by construction, and every
non-matching tag sorts strictly below every matching tag except the
pre-releases of version `0.0.0`, whose keys compare with the fallback keys by
raw text. -/
theorem c3_amended : ∀ (t u : String) (a b c : Nat) (pre : Option (List Char)),
    versionNumsMatch t.data = none →
    versionNumsMatch u.data = some (a, b, c, pre) →
    (pre = none ∨ ¬(a = 0 ∧ b = 0 ∧ c = 0)) →
    keyLtB (parse_version_key t) (parse_version_key u) = true := by
  intro t u a b c pre ht hu hc
  have hkt : parse_version_key t = (0, 0, 0, 0, t) := by rw [parse_version_key, ht]
  rcases pre with _ | p
  · have hku : parse_version_key u = (a, b, c, 1, "") := by rw [parse_version_key, hu]
    rw [hkt, hku]
    simp only [keyLtB]
    rcases Nat.eq_zero_or_pos a with rfl | ha
    · rcases Nat.eq_zero_or_pos b with rfl | hb
      · rcases Nat.eq_zero_or_pos c with rfl | hcc
        · simp
        · simp [hcc]
      · simp [hb]
    · simp [ha]
  · have hku : parse_version_key u = (a, b, c, 0, String.mk p) := by rw [parse_version_key, hu]
    rw [hkt, hku]
    simp only [keyLtB]
    rcases hc with hc | hc
    · exact Option.noConfusion hc
    · rcases Nat.eq_zero_or_pos a with rfl | ha
      · rcases Nat.eq_zero_or_pos b with rfl | hb
        · rcases Nat.eq_zero_or_pos c with rfl | hcc
          · exact absurd ⟨rfl, rfl, rfl⟩ hc
          · simp [hcc]
        · simp [hb]
      · simp [ha]

/-- Witness for the amended C3 at `t = "zzz"`, `u = "v1.2.3-beta"`. -/
theorem c3_witness :
    keyLtB (parse_version_key "zzz") (parse_version_key "v1.2.3-beta") = true :=
  c3_amended "zzz" "v1.2.3-beta" 1 2 3 (some "beta".data) rfl rfl (by simp)

/-! ### C5: previous-release lookup -/

theorem prevScan_eq_find (b : Bool) (l : List String) :
    prevScan b l = l.find? (fun c => b || !is_prerelease_tag c) := by
  induction l with
  | nil => rfl
  | cons c r ih =>
    rw [prevScan, List.find?_cons]
    cases b <;> cases hpc : is_prerelease_tag c <;> simp [hpc, ih]

/-- C5: the previous-release lookup agrees with the spec's description
(start just after the tag's position; skip pre-release candidates exactly when
the tag itself is stable; none when the tag is absent or last), checked
against the spec's concrete examples. -/
theorem c5_previous_release_lookup :
    (∀ changelog tag : String,
      previous_release_tag changelog tag = specPrevRel (extract_release_headings changelog) tag) ∧
    extract_release_headings changelogSample = ["v0.4.8", "v0.4.7", "v0.4.4-beta", "v0.4.4"] ∧
    previous_release_tag changelogSample "v0.4.8" = some "v0.4.7" ∧
    previous_release_tag changelogSample "v0.4.4-beta" = some "v0.4.4" ∧
    previous_release_tag changelogSample "v0.4.4" = none ∧
    previous_release_tag changelogSample "v0.9.9" = none := by
  refine ⟨?_, by decide, by decide, by decide, by decide, by decide⟩
  intro changelog tag
  rw [previous_release_tag, specPrevRel]
  by_cases h : tag ∈ extract_release_headings changelog
  · rw [if_pos h, if_pos h, prevScan_eq_find]
  · rw [if_neg h, if_neg h]

/-! ### Order lemmas for the Version Key comparison -/

theorem string_ext {a b : String} (h : a.data = b.data) : a = b := by
  cases a
  cases b
  exact congrArg String.mk (by simpa using h)

theorem strLtB_irrefl : ∀ x : List Char, strLtB x x = false := by
  intro x
  induction x with
  | nil => rfl
  | cons a as ih => simp [strLtB, ih]

theorem strLtB_trans : ∀ x y z : List Char,
    strLtB x y = true → strLtB y z = true → strLtB x z = true := by
  intro x
  induction x with
  | nil =>
    intro y z h1 h2
    cases y with
    | nil => exact absurd h1 (by simp [strLtB])
    | cons b bs =>
      cases z with
      | nil => exact absurd h2 (by simp [strLtB])
      | cons c cs => rfl
  | cons a as ih =>
    intro y z h1 h2
    cases y with
    | nil => exact absurd h1 (by simp [strLtB])
    | cons b bs =>
      cases z with
      | nil => exact absurd h2 (by simp [strLtB])
      | cons c cs =>
        simp only [strLtB, Bool.or_eq_true, Bool.and_eq_true, decide_eq_true_eq,
          beq_iff_eq] at h1 h2 ⊢
        rcases h1 with h1 | ⟨rfl, h1⟩
        · rcases h2 with h2 | ⟨rfl, h2⟩
          · exact .inl (lt_trans h1 h2)
          · exact .inl h1
        · rcases h2 with h2 | ⟨rfl, h2⟩
          · exact .inl h2
          · exact .inr ⟨rfl, ih bs cs h1 h2⟩

theorem strLtB_trichot : ∀ x y : List Char,
    strLtB x y = true ∨ strLtB y x = true ∨ x = y := by
  intro x
  induction x with
  | nil =>
    intro y
    cases y with
    | nil => exact .inr (.inr rfl)
    | cons b bs => exact .inl rfl
  | cons a as ih =>
    intro y
    cases y with
    | nil => exact .inr (.inl rfl)
    | cons b bs =>
      simp only [strLtB, Bool.or_eq_true, Bool.and_eq_true, decide_eq_true_eq, beq_iff_eq]
      rcases lt_trichotomy a b with hab | hab | hab
      · exact .inl (.inl hab)
      · subst hab
        rcases ih bs with h | h | h
        · exact .inl (.inr ⟨rfl, h⟩)
        · exact .inr (.inl (.inr ⟨rfl, h⟩))
        · subst h
          exact .inr (.inr rfl)
      · exact .inr (.inl (.inl hab))

theorem lexStepTrans {a b c : Nat} {p q r : Bool} (ht : p = true → q = true → r = true) :
    (decide (a < b) || (a == b && p)) = true → (decide (b < c) || (b == c && q)) = true →
    (decide (a < c) || (a == c && r)) = true := by
  simp only [Bool.or_eq_true, Bool.and_eq_true, decide_eq_true_eq, beq_iff_eq]
  rintro (h1 | ⟨he1, hp⟩) (h2 | ⟨he2, hq⟩)
  · exact .inl (Nat.lt_trans h1 h2)
  · exact .inl (he2 ▸ h1)
  · exact .inl (he1 ▸ h2)
  · exact .inr ⟨he1.trans he2, ht hp hq⟩

theorem lexStepTrichot {a b : Nat} {p q : Bool} {P : Prop} (h : p = true ∨ q = true ∨ P) :
    (decide (a < b) || (a == b && p)) = true ∨
    (decide (b < a) || (b == a && q)) = true ∨ (a = b ∧ P) := by
  simp only [Bool.or_eq_true, Bool.and_eq_true, decide_eq_true_eq, beq_iff_eq]
  rcases Nat.lt_trichotomy a b with hab | hab | hab
  · exact .inl (.inl hab)
  · rcases h with hp | hq | hP
    · exact .inl (.inr ⟨hab, hp⟩)
    · exact .inr (.inl (.inr ⟨hab.symm, hq⟩))
    · exact .inr (.inr ⟨hab, hP⟩)
  · exact .inr (.inl (.inl hab))

theorem keyLtB_irrefl : ∀ x : VersionKey, keyLtB x x = false := by
  rintro ⟨x1, x2, x3, x4, x5⟩
  simp [keyLtB, strLtB_irrefl]

theorem keyLtB_trans : ∀ x y z : VersionKey,
    keyLtB x y = true → keyLtB y z = true → keyLtB x z = true := by
  rintro ⟨x1, x2, x3, x4, x5⟩ ⟨y1, y2, y3, y4, y5⟩ ⟨z1, z2, z3, z4, z5⟩ h1 h2
  exact lexStepTrans (fun hp hq => lexStepTrans (fun hp hq => lexStepTrans
    (fun hp hq => lexStepTrans (fun hp hq => strLtB_trans _ _ _ hp hq) hp hq)
    hp hq) hp hq) h1 h2

theorem keyLtB_trichot : ∀ x y : VersionKey,
    keyLtB x y = true ∨ keyLtB y x = true ∨ x = y := by
  rintro ⟨x1, x2, x3, x4, x5⟩ ⟨y1, y2, y3, y4, y5⟩
  have base : strLtB x5.data y5.data = true ∨ strLtB y5.data x5.data = true ∨ x5 = y5 := by
    rcases strLtB_trichot x5.data y5.data with h | h | h
    · exact .inl h
    · exact .inr (.inl h)
    · exact .inr (.inr (string_ext h))
  have top := lexStepTrichot (a := x1) (b := y1)
    (lexStepTrichot (a := x2) (b := y2)
      (lexStepTrichot (a := x3) (b := y3)
        (lexStepTrichot (a := x4) (b := y4) base)))
  rcases top with h | h | ⟨rfl, h⟩
  · exact .inl h
  · exact .inr (.inl h)
  · rcases h with ⟨rfl, h⟩
    rcases h with ⟨rfl, h⟩
    rcases h with ⟨rfl, rfl⟩
    exact .inr (.inr rfl)

theorem keyLtB_asymm {x y : VersionKey} (h : keyLtB x y = true) : keyLtB y x = false := by
  by_contra hb
  rw [Bool.not_eq_false] at hb
  exact absurd (keyLtB_trans x y x h hb) (by simp [keyLtB_irrefl])

theorem keyLtB_negtrans {x y z : VersionKey} (h1 : keyLtB x y = false)
    (h2 : keyLtB y z = false) : keyLtB x z = false := by
  by_contra hb
  rw [Bool.not_eq_false] at hb
  rcases keyLtB_trichot x y with hxy | hyx | rfl
  · exact absurd hxy (by simp [h1])
  · exact absurd (keyLtB_trans y x z hyx hb) (by simp [h2])
  · exact absurd hb (by simp [h2])

/-! ### Lemmas about dedup and the descending sort -/

theorem dedupGo_mem : ∀ (l seen : List String) (x : String),
    x ∈ dedupGo seen l ↔ x ∈ l ∧ x ∉ seen := by
  intro l
  induction l with
  | nil => simp [dedupGo]
  | cons t r ih =>
    intro seen x
    simp only [dedupGo]
    by_cases ht : t ∈ seen
    · rw [if_pos ht, ih]
      constructor
      · rintro ⟨hx, hs⟩
        exact ⟨List.mem_cons_of_mem _ hx, hs⟩
      · rintro ⟨hx, hs⟩
        rcases List.mem_cons.mp hx with rfl | hx2
        · exact absurd ht hs
        · exact ⟨hx2, hs⟩
    · rw [if_neg ht]
      constructor
      · intro hx
        rcases List.mem_cons.mp hx with rfl | hx2
        · exact ⟨List.mem_cons_self _ _, ht⟩
        · rcases (ih (t :: seen) x).mp hx2 with ⟨hxr, hxs⟩
          exact ⟨List.mem_cons_of_mem _ hxr, fun hm => hxs (List.mem_cons_of_mem _ hm)⟩
      · rintro ⟨hx, hs⟩
        rcases List.mem_cons.mp hx with rfl | hx2
        · exact List.mem_cons_self _ _
        · by_cases hxt : x = t
          · subst hxt
            exact List.mem_cons_self _ _
          · refine List.mem_cons_of_mem _ ((ih (t :: seen) x).mpr ⟨hx2, ?_⟩)
            intro hm
            rcases List.mem_cons.mp hm with h | h
            · exact hxt h
            · exact hs h

theorem dedupGo_nodup : ∀ (l seen : List String), (dedupGo seen l).Nodup := by
  intro l
  induction l with
  | nil => simp [dedupGo]
  | cons t r ih =>
    intro seen
    simp only [dedupGo]
    by_cases ht : t ∈ seen
    · rw [if_pos ht]
      exact ih seen
    · rw [if_neg ht]
      refine List.nodup_cons.mpr ⟨fun hm => ?_, ih (t :: seen)⟩
      have := (dedupGo_mem r (t :: seen) t).mp hm
      exact this.2 (List.mem_cons_self t seen)

theorem insertDesc_perm : ∀ (l : List String) (a : String),
    (insertDesc a l).Perm (a :: l) := by
  intro l
  induction l with
  | nil => intro a; exact List.Perm.refl _
  | cons b r ih =>
    intro a
    simp only [insertDesc]
    by_cases hlt : keyLtB (parse_version_key a) (parse_version_key b) = true
    · rw [if_pos hlt]
      exact ((ih a).cons b).trans (List.Perm.swap a b r)
    · rw [if_neg hlt]

theorem sortDescByKey_perm : ∀ l : List String, (sortDescByKey l).Perm l := by
  intro l
  induction l with
  | nil => exact List.Perm.refl _
  | cons a r ih =>
    simp only [sortDescByKey]
    exact (insertDesc_perm (sortDescByKey r) a).trans (ih.cons a)

theorem insertDesc_pairwise {l : List String} (a : String)
    (h : List.Pairwise (fun x y =>
      keyLtB (parse_version_key x) (parse_version_key y) = false) l) :
    List.Pairwise (fun x y =>
      keyLtB (parse_version_key x) (parse_version_key y) = false) (insertDesc a l) := by
  induction l with
  | nil => exact List.Pairwise.cons (by simp) List.Pairwise.nil
  | cons b r ih =>
    rcases List.pairwise_cons.mp h with ⟨hb, hr⟩
    simp only [insertDesc]
    by_cases hlt : keyLtB (parse_version_key a) (parse_version_key b) = true
    · rw [if_pos hlt]
      refine List.pairwise_cons.mpr ⟨?_, ih hr⟩
      intro x hx
      have hx2 : x ∈ a :: r := (insertDesc_perm r a).mem_iff.mp hx
      rcases List.mem_cons.mp hx2 with rfl | hx3
      · exact keyLtB_asymm hlt
      · exact hb x hx3
    · rw [if_neg hlt]
      rw [Bool.not_eq_true] at hlt
      refine List.pairwise_cons.mpr ⟨?_, h⟩
      intro x hx
      rcases List.mem_cons.mp hx with rfl | hx2
      · exact hlt
      · exact keyLtB_negtrans hlt (hb x hx2)

theorem sortDescByKey_pairwise : ∀ l : List String,
    List.Pairwise (fun x y =>
      keyLtB (parse_version_key x) (parse_version_key y) = false) (sortDescByKey l) := by
  intro l
  induction l with
  | nil => simp [sortDescByKey]
  | cons a r ih =>
    simp only [sortDescByKey]
    exact insertDesc_pairwise a ih

theorem sorted_latest_tags_nodup : ∀ (tags : List String) (limit : Nat) (e : Option String),
    (sorted_latest_tags tags limit e).Nodup := by
  intro tags limit e
  have hdn : (dedupKeepFirst tags).Nodup := dedupGo_nodup tags []
  have hsn : (sortDescByKey (dedupKeepFirst tags)).Nodup :=
    (sortDescByKey_perm (dedupKeepFirst tags)).symm.nodup hdn
  have htop : ((sortDescByKey (dedupKeepFirst tags)).take limit).Nodup :=
    (List.take_sublist _ _).nodup hsn
  rcases e with _ | s
  · simpa only [sorted_latest_tags] using htop
  · simp only [sorted_latest_tags]
    by_cases hc : s ≠ "" ∧ s ∉ (sortDescByKey (dedupKeepFirst tags)).take limit
    · rw [if_pos hc]
      refine List.nodup_cons.mpr ⟨fun hm => ?_, (List.take_sublist _ _).nodup htop⟩
      exact hc.2 (List.Sublist.mem hm (List.take_sublist _ _))
    · rw [if_neg hc]
      exact htop

/-! ### C4: the top-N selector -/

/-- C4 counterexample: with current tag `""` (a Python-falsy string), the
selector never prepends it, so the current tag is not always included. -/
theorem c4_counterexample :
    sorted_latest_tags ["v1.0.0"] 1 (some "") = ["v1.0.0"] ∧
    ("" : String) ∉ sorted_latest_tags ["v1.0.0"] 1 (some "") := by
  refine ⟨by decide, by decide⟩

/-- C4 amended: for a non-empty current tag, the selector deduplicates
(keeping first occurrences), sorts descending by Version Key (a stable sort,
here characterized by a pairwise bound plus a permutation), truncates to `N`,
and when the current tag is outside the natural top `N` prepends it to the
first `N - 1` entries, so a non-empty current tag is always included; checked
on the spec's concrete example. -/
theorem c4_top_n_selector : ∀ (tags : List String) (limit : Nat) (cur : String),
    1 ≤ limit → cur ≠ "" →
    (dedupKeepFirst tags).Nodup ∧
    (∀ x, x ∈ dedupKeepFirst tags ↔ x ∈ tags) ∧
    (sortDescByKey (dedupKeepFirst tags)).Perm (dedupKeepFirst tags) ∧
    List.Pairwise (fun a b => keyLtB (parse_version_key a) (parse_version_key b) = false)
      (sortDescByKey (dedupKeepFirst tags)) ∧
    (cur ∈ (sortDescByKey (dedupKeepFirst tags)).take limit →
      sorted_latest_tags tags limit (some cur) =
        (sortDescByKey (dedupKeepFirst tags)).take limit) ∧
    (cur ∉ (sortDescByKey (dedupKeepFirst tags)).take limit →
      sorted_latest_tags tags limit (some cur) =
        cur :: ((sortDescByKey (dedupKeepFirst tags)).take limit).take (limit - 1)) ∧
    cur ∈ sorted_latest_tags tags limit (some cur) ∧
    sorted_latest_tags ["v0.4.4-beta", "v0.4.7", "v0.4.8", "v0.4.4"] 2 (some "v0.4.8") =
      ["v0.4.8", "v0.4.7"] := by
  intro tags limit cur hlim hcur
  have hmem : ∀ x, x ∈ dedupKeepFirst tags ↔ x ∈ tags := by
    intro x
    rw [dedupKeepFirst, dedupGo_mem]
    simp
  have hin : cur ∈ (sortDescByKey (dedupKeepFirst tags)).take limit →
      sorted_latest_tags tags limit (some cur) =
        (sortDescByKey (dedupKeepFirst tags)).take limit := by
    intro hc
    simp only [sorted_latest_tags, dedupKeepFirst] at *
    rw [if_neg (by simp [hc])]
  have hout : cur ∉ (sortDescByKey (dedupKeepFirst tags)).take limit →
      sorted_latest_tags tags limit (some cur) =
        cur :: ((sortDescByKey (dedupKeepFirst tags)).take limit).take (limit - 1) := by
    intro hc
    simp only [sorted_latest_tags, dedupKeepFirst] at *
    rw [if_pos ⟨hcur, hc⟩]
  refine ⟨dedupGo_nodup tags [], hmem, sortDescByKey_perm _, sortDescByKey_pairwise _,
    hin, hout, ?_, by decide⟩
  by_cases hc : cur ∈ (sortDescByKey (dedupKeepFirst tags)).take limit
  · rw [hin hc]
    exact hc
  · rw [hout hc]
    exact List.mem_cons_self _ _

/-- Witness for C4 at the spec's concrete example. -/
theorem c4_witness :
    (dedupKeepFirst ["v0.4.4-beta", "v0.4.7", "v0.4.8", "v0.4.4"]).Nodup ∧
    (∀ x, x ∈ dedupKeepFirst ["v0.4.4-beta", "v0.4.7", "v0.4.8", "v0.4.4"] ↔
      x ∈ ["v0.4.4-beta", "v0.4.7", "v0.4.8", "v0.4.4"]) ∧
    (sortDescByKey (dedupKeepFirst ["v0.4.4-beta", "v0.4.7", "v0.4.8", "v0.4.4"])).Perm
      (dedupKeepFirst ["v0.4.4-beta", "v0.4.7", "v0.4.8", "v0.4.4"]) ∧
    List.Pairwise (fun a b => keyLtB (parse_version_key a) (parse_version_key b) = false)
      (sortDescByKey (dedupKeepFirst ["v0.4.4-beta", "v0.4.7", "v0.4.8", "v0.4.4"])) ∧
    ("v0.4.8" ∈ (sortDescByKey
        (dedupKeepFirst ["v0.4.4-beta", "v0.4.7", "v0.4.8", "v0.4.4"])).take 2 →
      sorted_latest_tags ["v0.4.4-beta", "v0.4.7", "v0.4.8", "v0.4.4"] 2 (some "v0.4.8") =
        (sortDescByKey (dedupKeepFirst ["v0.4.4-beta", "v0.4.7", "v0.4.8", "v0.4.4"])).take 2) ∧
    ("v0.4.8" ∉ (sortDescByKey
        (dedupKeepFirst ["v0.4.4-beta", "v0.4.7", "v0.4.8", "v0.4.4"])).take 2 →
      sorted_latest_tags ["v0.4.4-beta", "v0.4.7", "v0.4.8", "v0.4.4"] 2 (some "v0.4.8") =
        "v0.4.8" :: ((sortDescByKey
          (dedupKeepFirst ["v0.4.4-beta", "v0.4.7", "v0.4.8", "v0.4.4"])).take 2).take (2 - 1)) ∧
    "v0.4.8" ∈ sorted_latest_tags ["v0.4.4-beta", "v0.4.7", "v0.4.8", "v0.4.4"] 2
      (some "v0.4.8") ∧
    sorted_latest_tags ["v0.4.4-beta", "v0.4.7", "v0.4.8", "v0.4.4"] 2 (some "v0.4.8") =
      ["v0.4.8", "v0.4.7"] :=
  c4_top_n_selector ["v0.4.4-beta", "v0.4.7", "v0.4.8", "v0.4.4"] 2 "v0.4.8"
    (by decide) (by decide)

/-! ### C7: the rolling summary rebuild -/

/-- C7: any successful rebuild selects a duplicate-free list of tags (at most
one summary block per tag), and its output is exactly the text before the end
of the `## Changelog` header, the regenerated blocks, and the text from the
`Full release history:` marker on — the previous region content, however it
looked, is gone, and everything outside the region is preserved. -/
theorem c7_rebuild_region : ∀ (readme changelog cur : String) (limit : Nat) (out : String),
    rebuild_readme_changelog_summaries readme changelog cur limit = .ok out →
    (sorted_latest_tags (extract_release_headings changelog) limit (some cur)).Nodup ∧
    ∃ hIdx mIdx blocks,
      findSub readmeChangelogHeader.data readme.data = some hIdx ∧
      findSubFrom fullHistoryMarker.data (hIdx + readmeChangelogHeader.data.length)
        readme.data = some mIdx ∧
      buildBlocks changelog
        (sorted_latest_tags (extract_release_headings changelog) limit (some cur)) =
        .ok blocks ∧
      out.data = readme.data.take (hIdx + readmeChangelogHeader.data.length) ++
        (joinWithSep "\n" blocks ++ "\n").data ++ readme.data.drop mIdx := by
  intro readme changelog cur limit out h
  refine ⟨sorted_latest_tags_nodup _ _ _, ?_⟩
  rw [rebuild_readme_changelog_summaries] at h
  rcases hh : findSub readmeChangelogHeader.data readme.data with _ | hIdx
  · simp only [hh] at h
    exact Except.noConfusion h
  · simp only [hh] at h
    rcases hm0 : findSub fullHistoryMarker.data readme.data with _ | m0
    · simp only [hm0] at h
      exact Except.noConfusion h
    · simp only [hm0] at h
      rcases hb : buildBlocks changelog
          (sorted_latest_tags (extract_release_headings changelog) limit (some cur)) with
        e | blocks
      · simp only [hb] at h
        exact Except.noConfusion h
      · simp only [hb] at h
        rcases hm : findSubFrom fullHistoryMarker.data
            (hIdx + readmeChangelogHeader.data.length) readme.data with _ | mIdx
        · simp only [hm] at h
          exact Except.noConfusion h
        · simp only [hm, Except.ok.injEq] at h
          refine ⟨hIdx, mIdx, blocks, rfl, hm, rfl, ?_⟩
          rw [← h]

/-- Witness for C7 on the concrete rebuild samples. -/
theorem c7_witness :
    (sorted_latest_tags (extract_release_headings rbChangelogSample) 3
      (some "v1.0.0")).Nodup ∧
    ∃ hIdx mIdx blocks,
      findSub readmeChangelogHeader.data rbReadmeSample.data = some hIdx ∧
      findSubFrom fullHistoryMarker.data (hIdx + readmeChangelogHeader.data.length)
        rbReadmeSample.data = some mIdx ∧
      buildBlocks rbChangelogSample
        (sorted_latest_tags (extract_release_headings rbChangelogSample) 3 (some "v1.0.0")) =
        .ok blocks ∧
      rbOutSample.data = rbReadmeSample.data.take
          (hIdx + readmeChangelogHeader.data.length) ++
        (joinWithSep "\n" blocks ++ "\n").data ++ rbReadmeSample.data.drop mIdx :=
  c7_rebuild_region rbReadmeSample rbChangelogSample "v1.0.0" 3 rbOutSample rfl

/-! ### C1: string escaping in the UI fragment rewrite -/

/-- C1: `swift_string` itself doubles the backslash, but the rewrite passes
the built block through `re.sub` as a replacement string, whose template
expansion collapses `\\` back to `\`; at the failing input (a bullet whose
text is `a\b`) the emitted line contains the single-backslash `"a\b"` and the
doubled form `a\\b` appears nowhere in the output. -/
theorem c1_swift_escaping_code_bug :
    swift_string "a\\b" = "a\\\\b" ∧
    exceptSat (fun out => (findSub "\"a\\b\"".data out.data).isSome &&
        (findSub "a\\\\b".data out.data).isNone)
      (update_welcome_tour_release_page tourSourceSample "v1.0.0" ["- a\\b"] none) = true := by
  refine ⟨rfl, by decide⟩

/-! ### C2: failure condition of the UI fragment rewrite -/

/-- C2 counterexample: a source containing two occurrences of the fixed block
shape (the second one still reachable after the first match) makes the rewrite
succeed — the second block's subtitle `"two"` survives in the output — rather
than fail. -/
theorem c2_counterexample :
    Option.any (fun p => (tourPageSearch p.2).isSome) (tourPageSearch tourSourceTwo.data) = true ∧
    exceptSat (fun out => (findSub "\"two\"".data out.data).isSome)
      (update_welcome_tour_release_page tourSourceTwo "v1.0.0" ["- x"] none) = true := by
  refine ⟨by decide, by decide⟩

/-- C2 amended: the rewrite fails with the block-not-found error if and only
if the fixed block shape has no occurrence at all in the source; when several
occurrences exist, the first is replaced (`count=1`). -/
theorem c2_block_not_found : ∀ (swift_source tag : String) (bullets : List String)
    (prev_tag : Option String),
    (∃ e, update_welcome_tour_release_page swift_source tag bullets prev_tag = .error e) ↔
      tourPageSearch swift_source.data = none := by
  intro src tag bullets prev
  rw [update_welcome_tour_release_page]
  rcases h : tourPageSearch src.data with _ | p
  · simp
  · rcases p with ⟨i, rest⟩
    simp

/-! ### Lemmas about the anchored scanners, for C9 -/

theorem isPrefixOf_self_append (p z : List Char) : p.isPrefixOf (p ++ z) = true := by
  rw [ List.isPrefixOf_iff_prefix]
  exact List.prefix_append p z

theorem consumeLit_append {pat l m : List Char} (h : consumeLit pat l = some m)
    (z : List Char) : consumeLit pat (l ++ z) = some (m ++ z) := by
  rw [consumeLit] at h
  by_cases hp : pat.isPrefixOf l = true
  · rw [if_pos hp] at h
    obtain ⟨t, rfl⟩ := ( List.isPrefixOf_iff_prefix).mp hp
    rw [List.drop_left] at h
    cases h
    rw [consumeLit, List.append_assoc, if_pos (isPrefixOf_self_append _ _), List.drop_left]
  · rw [if_neg hp] at h
    exact Option.noConfusion h

theorem consumeDigits_append : ∀ (n : Nat) {l m : List Char},
    consumeDigits n l = some m → ∀ z, consumeDigits n (l ++ z) = some (m ++ z) := by
  intro n
  induction n with
  | zero =>
    intro l m h z
    cases h
    rfl
  | succ n ih =>
    intro l m h z
    cases l with
    | nil => exact Option.noConfusion h
    | cons c r =>
      rw [consumeDigits] at h
      by_cases hc : isDigitChar c = true
      · rw [if_pos hc] at h
        rw [List.cons_append, consumeDigits, if_pos hc]
        exact ih h z
      · rw [if_neg hc] at h
        exact Option.noConfusion h

theorem consumeDate_append {l m : List Char} (h : consumeDate l = some m) (z : List Char) :
    consumeDate (l ++ z) = some (m ++ z) := by
  rw [consumeDate] at h
  rcases h1 : consumeDigits 4 l with _ | r1
  · simp only [h1] at h
    exact Option.noConfusion h
  · simp only [h1] at h
    rcases h2 : consumeLit ['-'] r1 with _ | r2
    · simp only [h2] at h
      exact Option.noConfusion h
    · simp only [h2] at h
      rcases h3 : consumeDigits 2 r2 with _ | r3
      · simp only [h3] at h
        exact Option.noConfusion h
      · simp only [h3] at h
        rcases h4 : consumeLit ['-'] r3 with _ | r4
        · simp only [h4] at h
          exact Option.noConfusion h
        · simp only [h4] at h
          rw [consumeDate]
          simp only [consumeDigits_append 4 h1 z, consumeLit_append h2 z,
            consumeDigits_append 2 h3 z, consumeLit_append h4 z]
          exact consumeDigits_append 2 h z

theorem dateShape_consumeDate {date : String} (h : dateShape date = true) :
    consumeDate date.data = some [] := by
  rw [dateShape] at h
  rcases hc : consumeDate date.data with _ | r
  · rw [hc] at h
    exact Bool.noConfusion h
  · rw [hc] at h
    cases r with
    | nil => rfl
    | cons a t => exact Bool.noConfusion h

theorem changelogHeadingAt_template (tag date : String) (hd : dateShape date = true)
    (z : List Char) :
    changelogHeadingAt tag.data ((changelogTemplate tag date).data ++ z) = true := by
  have hshape : (changelogTemplate tag date).data ++ z =
      ("## [".data ++ tag.data ++ "] - ".data) ++ (date.data ++ ('\n' ::
        ("\n### Added\n- TODO\n\n### Improved\n- TODO\n\n### Fixed\n- TODO\n\n".data ++ z))) := by
    show ("## [".data ++ tag.data ++ "] - ".data ++ date.data ++ "\n\n".data ++
      "### Added\n".data ++ "- TODO\n\n".data ++ "### Improved\n".data ++ "- TODO\n\n".data ++
      "### Fixed\n".data ++ "- TODO\n\n".data) ++ z = _
    simp [List.append_assoc]
  have hcl : consumeLit ("## [".data ++ tag.data ++ "] - ".data)
      (("## [".data ++ tag.data ++ "] - ".data) ++ (date.data ++ ('\n' ::
        ("\n### Added\n- TODO\n\n### Improved\n- TODO\n\n### Fixed\n- TODO\n\n".data ++ z)))) =
      some (date.data ++ ('\n' ::
        ("\n### Added\n- TODO\n\n### Improved\n- TODO\n\n### Fixed\n- TODO\n\n".data ++ z))) := by
    rw [consumeLit, if_pos (isPrefixOf_self_append _ _), List.drop_left]
  have hdate := consumeDate_append (dateShape_consumeDate hd)
    ('\n' :: ("\n### Added\n- TODO\n\n### Improved\n- TODO\n\n### Fixed\n- TODO\n\n".data ++ z))
  rw [List.nil_append] at hdate
  rw [hshape, changelogHeadingAt]
  simp only [hcl, hdate]
  rfl

theorem scanLineStartIdx_take {pat : List Char} (hpat : pat ≠ []) :
    ∀ {l : List Char} {b : Bool} {i : Nat},
    scanLineStartIdx (List.isPrefixOf pat) b l = some i →
    scanLineStartIdx (List.isPrefixOf pat) b (l.take i) = none := by
  intro l
  induction l with
  | nil =>
    intro b i h
    rw [scanLineStartIdx] at h
    have hp : pat.isPrefixOf ([] : List Char) = false := by
      cases pat with
      | nil => exact absurd rfl hpat
      | cons a t => rfl
    rw [hp, Bool.and_false] at h
    exact Option.noConfusion h
  | cons c r ih =>
    intro b i h
    rw [scanLineStartIdx] at h
    by_cases hc : (b && pat.isPrefixOf (c :: r)) = true
    · rw [if_pos hc] at h
      cases h
      rw [List.take_zero, scanLineStartIdx]
      have hp : pat.isPrefixOf ([] : List Char) = false := by
        cases pat with
        | nil => exact absurd rfl hpat
        | cons a t => rfl
      rw [hp, Bool.and_false]
      rfl
    · rw [if_neg hc] at h
      rcases hj : scanLineStartIdx (List.isPrefixOf pat) (decide (c = '\n')) r with _ | j
      · rw [hj] at h
        exact Option.noConfusion h
      · rw [hj] at h
        cases h
        rw [List.take_succ_cons, scanLineStartIdx]
        have hnc : (b && pat.isPrefixOf (c :: r.take j)) = false := by
          by_contra hb
          rw [Bool.not_eq_false, Bool.and_eq_true] at hb
          have htp : (c :: r.take j) <+: (c :: r) := by
            obtain ⟨t, ht⟩ := List.take_prefix j r
            exact ⟨t, by rw [List.cons_append, ht]⟩
          have : pat.isPrefixOf (c :: r) = true := by
            rw [ List.isPrefixOf_iff_prefix] at hb ⊢
            exact hb.2.trans htp
          rw [hb.1, this] at hc
          exact hc rfl
        rw [hnc, if_neg (by simp), ih hj]
        rfl

theorem existsLineStart_here {m2 : List Char → Bool} {y : List Char} (h : m2 y = true) :
    existsLineStart m2 true y = true := by
  cases y with
  | nil =>
    rw [existsLineStart, h]
    rfl
  | cons c r =>
    rw [existsLineStart, h]
    rfl

theorem existsLineStart_splice {m2 : List Char → Bool} :
    ∀ {l : List Char} {b : Bool} {i : Nat} {m : List Char → Bool},
    scanLineStartIdx m b l = some i → ∀ {y : List Char}, m2 y = true →
    existsLineStart m2 b (l.take i ++ y) = true := by
  intro l
  induction l with
  | nil =>
    intro b i m h y hy
    rw [scanLineStartIdx] at h
    by_cases hb : (b && m []) = true
    · rw [if_pos hb] at h
      cases h
      rw [Bool.and_eq_true] at hb
      rw [List.take_nil, List.nil_append, hb.1]
      exact existsLineStart_here hy
    · rw [if_neg hb] at h
      exact Option.noConfusion h
  | cons c r ih =>
    intro b i m h y hy
    rw [scanLineStartIdx] at h
    by_cases hc : (b && m (c :: r)) = true
    · rw [if_pos hc] at h
      cases h
      rw [Bool.and_eq_true] at hc
      rw [List.take_zero, List.nil_append, hc.1]
      exact existsLineStart_here hy
    · rw [if_neg hc] at h
      rcases hj : scanLineStartIdx m (decide (c = '\n')) r with _ | j
      · rw [hj] at h
        exact Option.noConfusion h
      · rw [hj] at h
        cases h
        rw [List.take_succ_cons, List.cons_append, existsLineStart, ih hj hy,
          Bool.or_true]

theorem existsLineStart_after_nl {m2 : List Char → Bool} {y : List Char} (hy : m2 y = true) :
    ∀ (x : List Char) (b : Bool), existsLineStart m2 b (x ++ '\n' :: y) = true := by
  intro x
  induction x with
  | nil =>
    intro b
    rw [List.nil_append, existsLineStart]
    have : decide ('\n' = '\n') = true := by decide
    rw [this, existsLineStart_here hy, Bool.or_true]
  | cons c x' ih =>
    intro b
    rw [List.cons_append, existsLineStart, ih, Bool.or_true]

/-- C9: adding a section for a tag with no existing heading makes
has-section true for every ISO-shaped date, and the templated section is
spliced in directly before the first existing heading (none of the text
before the insertion point contains a line-start heading opener), or appended
at the end when no heading exists — so it precedes every previously existing
heading. -/
theorem c9_add_changelog_section : ∀ (changelog tag date : String),
    dateShape date = true →
    has_changelog_section changelog tag = false →
    has_changelog_section (add_changelog_section changelog tag date) tag = true ∧
    (∀ i, scanLineStartIdx (List.isPrefixOf "## [".data) true changelog.data = some i →
      add_changelog_section changelog tag date =
        String.mk (changelog.data.take i) ++ changelogTemplate tag date ++
          String.mk (changelog.data.drop i) ∧
      scanLineStartIdx (List.isPrefixOf "## [".data) true (changelog.data.take i) = none) ∧
    (scanLineStartIdx (List.isPrefixOf "## [".data) true changelog.data = none →
      add_changelog_section changelog tag date =
        String.mk (pyRstrip changelog.data) ++ "\n\n" ++ changelogTemplate tag date) := by
  intro changelog tag date hd _hno
  refine ⟨?_, ?_, ?_⟩
  · rcases hscan : scanLineStartIdx (List.isPrefixOf "## [".data) true changelog.data with _ | i
    · rw [add_changelog_section]
      simp only [hscan]
      rw [has_changelog_section]
      have hdata : (String.mk (pyRstrip changelog.data) ++ "\n\n" ++
          changelogTemplate tag date).data =
          (pyRstrip changelog.data ++ ['\n']) ++ '\n' :: (changelogTemplate tag date).data := by
        show (pyRstrip changelog.data ++ ['\n', '\n']) ++ (changelogTemplate tag date).data = _
        simp
      rw [hdata]
      have hhit := changelogHeadingAt_template tag date hd []
      rw [List.append_nil] at hhit
      exact existsLineStart_after_nl hhit _ true
    · rw [add_changelog_section]
      simp only [hscan]
      rw [has_changelog_section]
      have hdata : (String.mk (changelog.data.take i) ++ changelogTemplate tag date ++
          String.mk (changelog.data.drop i)).data =
          changelog.data.take i ++
            ((changelogTemplate tag date).data ++ changelog.data.drop i) := by
        show (changelog.data.take i ++ (changelogTemplate tag date).data) ++
          changelog.data.drop i = _
        rw [List.append_assoc]
      rw [hdata]
      exact existsLineStart_splice hscan
        (changelogHeadingAt_template tag date hd (changelog.data.drop i))
  · intro i hscan
    constructor
    · rw [add_changelog_section]
      simp only [hscan]
    · exact scanLineStartIdx_take (by decide) hscan
  · intro hscan
    rw [add_changelog_section]
    simp only [hscan]

/-- Witness for C9 on a concrete changelog with one prior heading. -/
theorem c9_witness :
    has_changelog_section
      (add_changelog_section "# Log\n\n## [v0.9.0] - 2024-01-01\n- x\n" "v1.0.0" "2024-05-05")
      "v1.0.0" = true ∧
    (∀ i, scanLineStartIdx (List.isPrefixOf "## [".data) true
        "# Log\n\n## [v0.9.0] - 2024-01-01\n- x\n".data = some i →
      add_changelog_section "# Log\n\n## [v0.9.0] - 2024-01-01\n- x\n" "v1.0.0" "2024-05-05" =
        String.mk ("# Log\n\n## [v0.9.0] - 2024-01-01\n- x\n".data.take i) ++
          changelogTemplate "v1.0.0" "2024-05-05" ++
          String.mk ("# Log\n\n## [v0.9.0] - 2024-01-01\n- x\n".data.drop i) ∧
      scanLineStartIdx (List.isPrefixOf "## [".data) true
        ("# Log\n\n## [v0.9.0] - 2024-01-01\n- x\n".data.take i) = none) ∧
    (scanLineStartIdx (List.isPrefixOf "## [".data) true
        "# Log\n\n## [v0.9.0] - 2024-01-01\n- x\n".data = none →
      add_changelog_section "# Log\n\n## [v0.9.0] - 2024-01-01\n- x\n" "v1.0.0" "2024-05-05" =
        String.mk (pyRstrip "# Log\n\n## [v0.9.0] - 2024-01-01\n- x\n".data) ++ "\n\n" ++
          changelogTemplate "v1.0.0" "2024-05-05") :=
  c9_add_changelog_section "# Log\n\n## [v0.9.0] - 2024-01-01\n- x\n" "v1.0.0" "2024-05-05"
    (by decide) (by decide)

/-! ### Line splitting lemmas, for C8 -/

theorem splitNl_ne_nil : ∀ l : List Char, splitNl l ≠ [] := by
  intro l
  cases l with
  | nil => simp [splitNl]
  | cons c r =>
    rw [splitNl]
    by_cases hc : c = '\n'
    · rw [if_pos hc]
      simp
    · rw [if_neg hc]
      rcases hs : splitNl r with _ | ⟨x, xs⟩ <;> simp

theorem splitNl_no_nl : ∀ (l : List Char) (x : List Char), x ∈ splitNl l → '\n' ∉ x := by
  intro l
  induction l with
  | nil =>
    intro x hx
    simp [splitNl] at hx
    simp [hx]
  | cons c r ih =>
    intro x hx
    rw [splitNl] at hx
    by_cases hc : c = '\n'
    · rw [if_pos hc] at hx
      rcases List.mem_cons.mp hx with rfl | hx2
      · simp
      · exact ih x hx2
    · rw [if_neg hc] at hx
      rcases hs : splitNl r with _ | ⟨y, ys⟩
      · rw [hs] at hx
        simp at hx
        subst hx
        simp
        exact fun hh => hc hh.symm
      · rw [hs] at hx
        rcases List.mem_cons.mp hx with rfl | hx2
        · have hy : '\n' ∉ y := ih y (hs ▸ List.mem_cons_self y ys)
          simp [hy]
          exact fun hh => hc hh.symm
        · exact ih x (hs ▸ List.mem_cons_of_mem y hx2)

theorem joinNl_splitNl : ∀ l : List Char, joinNl (splitNl l) = l := by
  intro l
  induction l with
  | nil => rfl
  | cons c r ih =>
    rw [splitNl]
    by_cases hc : c = '\n'
    · rw [if_pos hc]
      rcases hs : splitNl r with _ | ⟨y, ys⟩
      · exact absurd hs (splitNl_ne_nil r)
      · rw [hs] at ih
        subst hc
        simp [joinNl, ih]
    · rw [if_neg hc]
      rcases hs : splitNl r with _ | ⟨y, ys⟩
      · exact absurd hs (splitNl_ne_nil r)
      · rw [hs] at ih
        cases ys with
        | nil =>
          simp [joinNl] at ih ⊢
          rw [ih]
        | cons z zs =>
          simp [joinNl] at ih ⊢
          exact ih

theorem splitNl_single : ∀ {x : List Char}, '\n' ∉ x → splitNl x = [x] := by
  intro x
  induction x with
  | nil => intro _; rfl
  | cons c t ih =>
    intro h
    have hc : c ≠ '\n' := fun hcc => h (hcc ▸ List.mem_cons_self c t)
    have ht : '\n' ∉ t := fun hm => h (List.mem_cons_of_mem c hm)
    rw [splitNl, if_neg hc]
    simp only [ih ht]

theorem splitNl_append_nl : ∀ {x : List Char}, '\n' ∉ x →
    ∀ r, splitNl (x ++ '\n' :: r) = x :: splitNl r := by
  intro x
  induction x with
  | nil =>
    intro _ r
    rw [List.nil_append, splitNl, if_pos rfl]
  | cons c t ih =>
    intro h r
    have hc : c ≠ '\n' := fun hcc => h (hcc ▸ List.mem_cons_self c t)
    have ht : '\n' ∉ t := fun hm => h (List.mem_cons_of_mem c hm)
    rw [List.cons_append, splitNl, if_neg hc]
    simp only [ih ht r]

theorem splitNl_joinNl : ∀ {xs : List (List Char)}, xs ≠ [] →
    (∀ x ∈ xs, '\n' ∉ x) → splitNl (joinNl xs) = xs := by
  intro xs
  induction xs with
  | nil => intro h _; exact absurd rfl h
  | cons x ys ih =>
    intro _ hnl
    cases ys with
    | nil =>
      show splitNl (joinNl [x]) = [x]
      rw [joinNl]
      exact splitNl_single (hnl x (List.mem_cons_self x []))
    | cons y zs =>
      show splitNl (joinNl (x :: y :: zs)) = x :: y :: zs
      rw [joinNl]
      · rw [splitNl_append_nl (hnl x (List.mem_cons_self x (y :: zs)))]
        rw [ih (List.cons_ne_nil y zs) (fun a ha => hnl a (List.mem_cons_of_mem x ha))]
      · exact fun hh => List.noConfusion hh

theorem lineRule_no_nl {pre suf repl : List Char} (hrepl : '\n' ∉ repl) {x : List Char}
    (hx : '\n' ∉ x) : '\n' ∉ lineRule pre suf repl x := by
  rw [lineRule]
  by_cases hh : lineHit pre suf x = true
  · rw [if_pos hh]
    exact hrepl
  · rw [if_neg hh]
    exact hx

theorem repl_no_nl_parts {a b : List Char} {tag : String} (ha : '\n' ∉ a) (hb : '\n' ∉ b)
    (h : '\n' ∉ tag.data) : '\n' ∉ (a ++ tag.data) ++ b := by
  intro hm
  rcases List.mem_append.mp hm with hm2 | hm2
  · rcases List.mem_append.mp hm2 with hm3 | hm3
    · exact ha hm3
    · exact h hm3
  · exact hb hm2

theorem pass_of_mapped (pre suf repl : List Char) {xs : List (List Char)} (hxs : xs ≠ [])
    (hnl : ∀ x ∈ xs, '\n' ∉ x) :
    refsPass pre suf repl (joinNl xs) = joinNl (xs.map (lineRule pre suf repl)) := by
  rw [refsPass, splitNl_joinNl hxs hnl]

theorem repl_no_char_parts {c : Char} {a b : List Char} {tag : String} (ha : c ∉ a)
    (hb : c ∉ b) (h : c ∉ tag.data) : c ∉ (a ++ tag.data) ++ b := by
  intro hm
  rcases List.mem_append.mp hm with hm2 | hm2
  · rcases List.mem_append.mp hm2 with hm3 | hm3
    · exact ha hm3
    · exact h hm3
  · exact hb hm2

theorem repl_no_char_two {c : Char} {a : List Char} {tag : String} (ha : c ∉ a)
    (h : c ∉ tag.data) : c ∉ a ++ tag.data := by
  intro hm
  rcases List.mem_append.mp hm with hm2 | hm2
  · exact ha hm2
  · exact h hm2

theorem parse_template_go_no_bs : ∀ (fuel : Nat) (l : List Char), l.length < fuel →
    '\\' ∉ l → parse_template_go fuel l = .ok (l.map TmplPiece.lit) := by
  intro fuel
  induction fuel with
  | zero =>
    intro l hl _
    exact absurd hl (Nat.not_lt_zero _)
  | succ fuel ih =>
    intro l hl hbs
    match l with
    | [] => rfl
    | c :: r =>
      have hc : c ≠ '\\' := fun hh => hbs (hh ▸ List.mem_cons_self c r)
      simp only [parse_template_go, if_pos hc,
        ih r (Nat.lt_of_succ_lt_succ hl) (fun hm => hbs (List.mem_cons_of_mem c hm))]
      rfl

theorem parse_template_no_bs {l : List Char} (h : '\\' ∉ l) :
    parse_template l = .ok (l.map TmplPiece.lit) :=
  parse_template_go_no_bs (l.length + 1) l (Nat.lt_succ_self _) h

theorem applyTemplate_lit (l m : List Char) : applyTemplate (l.map TmplPiece.lit) m = l := by
  induction l with
  | nil => rfl
  | cons c r ih =>
    show [c] ++ applyTemplate (r.map TmplPiece.lit) m = c :: r
    rw [ih]
    rfl

theorem lineRuleT_lit (pre suf repl line : List Char) :
    lineRuleT pre suf (repl.map TmplPiece.lit) line = lineRule pre suf repl line := by
  rw [lineRuleT, lineRule, applyTemplate_lit]

theorem refsPassT_lit (pre suf repl s : List Char) :
    refsPassT pre suf (repl.map TmplPiece.lit) s = refsPass pre suf repl s := by
  rw [refsPassT, refsPass]
  congr 1
  apply List.map_congr_left
  intro a _
  exact lineRuleT_lit pre suf repl a

/-! ### Per-line facts about the four reference-rewrite rules -/

theorem lineHit_repl1 (tag : String) : lineHit "> Latest release: **".data "**".data
    ("> Latest release: **" ++ tag ++ "**").data = true := by
  have hr : ("> Latest release: **" ++ tag ++ "**").data =
      "> Latest release: **".data ++ (tag.data ++ "**".data) := by
    show ("> Latest release: **".data ++ tag.data) ++ "**".data = _
    rw [List.append_assoc]
  rw [lineHit, hr, isPrefixOf_self_append, List.drop_left, Bool.true_and]
  simp [ List.isSuffixOf_iff_suffix]

theorem lineHit_repl2 (tag : String) : lineHit "- Latest release: **".data "**".data
    ("- Latest release: **" ++ tag ++ "**").data = true := by
  have hr : ("- Latest release: **" ++ tag ++ "**").data =
      "- Latest release: **".data ++ (tag.data ++ "**".data) := by
    show ("- Latest release: **".data ++ tag.data) ++ "**".data = _
    rw [List.append_assoc]
  rw [lineHit, hr, isPrefixOf_self_append, List.drop_left, Bool.true_and]
  simp [ List.isSuffixOf_iff_suffix]

theorem lineHit_repl3 (tag : String) : lineHit "- Tag: `".data "`".data
    ("- Tag: `" ++ tag ++ "`").data = true := by
  have hr : ("- Tag: `" ++ tag ++ "`").data =
      "- Tag: `".data ++ (tag.data ++ "`".data) := by
    show ("- Tag: `".data ++ tag.data) ++ "`".data = _
    rw [List.append_assoc]
  rw [lineHit, hr, isPrefixOf_self_append, List.drop_left, Bool.true_and]
  simp [ List.isSuffixOf_iff_suffix]

theorem lineHit_repl4 (tag : String) : lineHit "git rev-parse --verify ".data []
    ("git rev-parse --verify " ++ tag).data = true := by
  have hr : ("git rev-parse --verify " ++ tag).data =
      "git rev-parse --verify ".data ++ tag.data := rfl
  rw [lineHit, hr, isPrefixOf_self_append, Bool.true_and]
  simp [ List.isSuffixOf_iff_suffix]

theorem lineMiss_1_2 (tag : String) : lineHit "> Latest release: **".data "**".data
    ("- Latest release: **" ++ tag ++ "**").data = false := rfl

theorem lineMiss_1_3 (tag : String) : lineHit "> Latest release: **".data "**".data
    ("- Tag: `" ++ tag ++ "`").data = false := rfl

theorem lineMiss_1_4 (tag : String) : lineHit "> Latest release: **".data "**".data
    ("git rev-parse --verify " ++ tag).data = false := rfl

theorem lineMiss_2_1 (tag : String) : lineHit "- Latest release: **".data "**".data
    ("> Latest release: **" ++ tag ++ "**").data = false := rfl

theorem lineMiss_2_3 (tag : String) : lineHit "- Latest release: **".data "**".data
    ("- Tag: `" ++ tag ++ "`").data = false := rfl

theorem lineMiss_2_4 (tag : String) : lineHit "- Latest release: **".data "**".data
    ("git rev-parse --verify " ++ tag).data = false := rfl

theorem lineMiss_3_1 (tag : String) : lineHit "- Tag: `".data "`".data
    ("> Latest release: **" ++ tag ++ "**").data = false := rfl

theorem lineMiss_3_2 (tag : String) : lineHit "- Tag: `".data "`".data
    ("- Latest release: **" ++ tag ++ "**").data = false := rfl

theorem lineMiss_3_4 (tag : String) : lineHit "- Tag: `".data "`".data
    ("git rev-parse --verify " ++ tag).data = false := rfl

theorem lineMiss_4_1 (tag : String) : lineHit "git rev-parse --verify ".data []
    ("> Latest release: **" ++ tag ++ "**").data = false := rfl

theorem lineMiss_4_2 (tag : String) : lineHit "git rev-parse --verify ".data []
    ("- Latest release: **" ++ tag ++ "**").data = false := rfl

theorem lineMiss_4_3 (tag : String) : lineHit "git rev-parse --verify ".data []
    ("- Tag: `" ++ tag ++ "`").data = false := rfl

theorem repl1_no_nl (tag : String) (h : '\n' ∉ tag.data) :
    '\n' ∉ ("> Latest release: **" ++ tag ++ "**").data :=
  repl_no_nl_parts (by decide) (by decide) h

theorem repl2_no_nl (tag : String) (h : '\n' ∉ tag.data) :
    '\n' ∉ ("- Latest release: **" ++ tag ++ "**").data :=
  repl_no_nl_parts (by decide) (by decide) h

theorem repl3_no_nl (tag : String) (h : '\n' ∉ tag.data) :
    '\n' ∉ ("- Tag: `" ++ tag ++ "`").data :=
  repl_no_nl_parts (by decide) (by decide) h

theorem repl4_no_nl (tag : String) (h : '\n' ∉ tag.data) :
    '\n' ∉ ("git rev-parse --verify " ++ tag).data := by
  intro hm
  rcases List.mem_append.mp hm with hm2 | hm2
  · exact (by decide : '\n' ∉ "git rev-parse --verify ".data) hm2
  · exact h hm2

theorem lineStep_no_nl (tag : String) (h : '\n' ∉ tag.data) {x : List Char}
    (hx : '\n' ∉ x) : '\n' ∉ lineStep tag x :=
  lineRule_no_nl (repl4_no_nl tag h) (lineRule_no_nl (repl3_no_nl tag h)
    (lineRule_no_nl (repl2_no_nl tag h) (lineRule_no_nl (repl1_no_nl tag h) hx)))

theorem lineRule_hit {pre suf repl line : List Char} (h : lineHit pre suf line = true) :
    lineRule pre suf repl line = repl := by
  rw [lineRule, h, if_pos rfl]

theorem lineRule_miss {pre suf repl line : List Char} (h : lineHit pre suf line = false) :
    lineRule pre suf repl line = line := by
  rw [lineRule, h, if_neg (by decide)]

theorem lineStep_idem (tag : String) (line : List Char) :
    lineStep tag (lineStep tag line) = lineStep tag line := by
  by_cases h1 : lineHit "> Latest release: **".data "**".data line = true
  · have hs : lineStep tag line = ("> Latest release: **" ++ tag ++ "**").data := by
      rw [lineStep, lineRule_hit h1, lineRule_miss (lineMiss_2_1 tag),
        lineRule_miss (lineMiss_3_1 tag), lineRule_miss (lineMiss_4_1 tag)]
    rw [hs, lineStep, lineRule_hit (lineHit_repl1 tag), lineRule_miss (lineMiss_2_1 tag),
      lineRule_miss (lineMiss_3_1 tag), lineRule_miss (lineMiss_4_1 tag)]
  · rw [Bool.not_eq_true] at h1
    by_cases h2 : lineHit "- Latest release: **".data "**".data line = true
    · have hs : lineStep tag line = ("- Latest release: **" ++ tag ++ "**").data := by
        rw [lineStep, lineRule_miss h1, lineRule_hit h2, lineRule_miss (lineMiss_3_2 tag),
          lineRule_miss (lineMiss_4_2 tag)]
      rw [hs, lineStep, lineRule_miss (lineMiss_1_2 tag), lineRule_hit (lineHit_repl2 tag),
        lineRule_miss (lineMiss_3_2 tag), lineRule_miss (lineMiss_4_2 tag)]
    · rw [Bool.not_eq_true] at h2
      by_cases h3 : lineHit "- Tag: `".data "`".data line = true
      · have hs : lineStep tag line = ("- Tag: `" ++ tag ++ "`").data := by
          rw [lineStep, lineRule_miss h1, lineRule_miss h2, lineRule_hit h3,
            lineRule_miss (lineMiss_4_3 tag)]
        rw [hs, lineStep, lineRule_miss (lineMiss_1_3 tag), lineRule_miss (lineMiss_2_3 tag),
          lineRule_hit (lineHit_repl3 tag), lineRule_miss (lineMiss_4_3 tag)]
      · rw [Bool.not_eq_true] at h3
        by_cases h4 : lineHit "git rev-parse --verify ".data [] line = true
        · have hs : lineStep tag line = ("git rev-parse --verify " ++ tag).data := by
            rw [lineStep, lineRule_miss h1, lineRule_miss h2, lineRule_miss h3,
              lineRule_hit h4]
          rw [hs, lineStep, lineRule_miss (lineMiss_1_4 tag), lineRule_miss (lineMiss_2_4 tag),
            lineRule_miss (lineMiss_3_4 tag), lineRule_hit (lineHit_repl4 tag)]
        · rw [Bool.not_eq_true] at h4
          have hs : lineStep tag line = line := by
            rw [lineStep, lineRule_miss h1, lineRule_miss h2, lineRule_miss h3,
              lineRule_miss h4]
          rw [hs]
          exact hs

theorem refs_passes_fused (readme tag : String) (h : '\n' ∉ tag.data) :
    refsPass "git rev-parse --verify ".data [] ("git rev-parse --verify " ++ tag).data
      (refsPass "- Tag: `".data "`".data ("- Tag: `" ++ tag ++ "`").data
        (refsPass "- Latest release: **".data "**".data
            ("- Latest release: **" ++ tag ++ "**").data
          (refsPass "> Latest release: **".data "**".data
              ("> Latest release: **" ++ tag ++ "**").data readme.data))) =
      joinNl ((splitNl readme.data).map (lineStep tag)) := by
  have hne1 : (splitNl readme.data).map
      (lineRule "> Latest release: **".data "**".data
        ("> Latest release: **" ++ tag ++ "**").data) ≠ [] := by
    intro hh
    exact splitNl_ne_nil readme.data (List.map_eq_nil_iff.mp hh)
  have hnl1 : ∀ x ∈ (splitNl readme.data).map
      (lineRule "> Latest release: **".data "**".data
        ("> Latest release: **" ++ tag ++ "**").data), '\n' ∉ x := by
    intro x hx
    obtain ⟨y, hy, rfl⟩ := List.mem_map.mp hx
    exact lineRule_no_nl (repl1_no_nl tag h) (splitNl_no_nl _ y hy)
  simp only [refsPass]
  rw [splitNl_joinNl hne1 hnl1, List.map_map]
  have hne2 : (splitNl readme.data).map
      ((lineRule "- Latest release: **".data "**".data
          ("- Latest release: **" ++ tag ++ "**").data) ∘
        (lineRule "> Latest release: **".data "**".data
          ("> Latest release: **" ++ tag ++ "**").data)) ≠ [] := by
    intro hh
    exact splitNl_ne_nil readme.data (List.map_eq_nil_iff.mp hh)
  have hnl2 : ∀ x ∈ (splitNl readme.data).map
      ((lineRule "- Latest release: **".data "**".data
          ("- Latest release: **" ++ tag ++ "**").data) ∘
        (lineRule "> Latest release: **".data "**".data
          ("> Latest release: **" ++ tag ++ "**").data)), '\n' ∉ x := by
    intro x hx
    obtain ⟨y, hy, rfl⟩ := List.mem_map.mp hx
    exact lineRule_no_nl (repl2_no_nl tag h)
      (lineRule_no_nl (repl1_no_nl tag h) (splitNl_no_nl _ y hy))
  rw [splitNl_joinNl hne2 hnl2, List.map_map]
  have hne3 : (splitNl readme.data).map
      ((lineRule "- Tag: `".data "`".data ("- Tag: `" ++ tag ++ "`").data) ∘
        ((lineRule "- Latest release: **".data "**".data
            ("- Latest release: **" ++ tag ++ "**").data) ∘
          (lineRule "> Latest release: **".data "**".data
            ("> Latest release: **" ++ tag ++ "**").data))) ≠ [] := by
    intro hh
    exact splitNl_ne_nil readme.data (List.map_eq_nil_iff.mp hh)
  have hnl3 : ∀ x ∈ (splitNl readme.data).map
      ((lineRule "- Tag: `".data "`".data ("- Tag: `" ++ tag ++ "`").data) ∘
        ((lineRule "- Latest release: **".data "**".data
            ("- Latest release: **" ++ tag ++ "**").data) ∘
          (lineRule "> Latest release: **".data "**".data
            ("> Latest release: **" ++ tag ++ "**").data))), '\n' ∉ x := by
    intro x hx
    obtain ⟨y, hy, rfl⟩ := List.mem_map.mp hx
    exact lineRule_no_nl (repl3_no_nl tag h) (lineRule_no_nl (repl2_no_nl tag h)
      (lineRule_no_nl (repl1_no_nl tag h) (splitNl_no_nl _ y hy)))
  rw [splitNl_joinNl hne3 hnl3, List.map_map]
  rfl

theorem refs_fused (readme tag : String) (hn : '\n' ∉ tag.data) (hb : '\\' ∉ tag.data) :
    update_readme_release_refs readme tag =
      .ok (String.mk (joinNl ((splitNl readme.data).map (lineStep tag)))) := by
  have hp1 : parse_template ("> Latest release: **" ++ tag ++ "**").data =
      .ok (("> Latest release: **" ++ tag ++ "**").data.map TmplPiece.lit) :=
    parse_template_no_bs (repl_no_char_parts (by decide) (by decide) hb)
  have hp2 : parse_template ("- Latest release: **" ++ tag ++ "**").data =
      .ok (("- Latest release: **" ++ tag ++ "**").data.map TmplPiece.lit) :=
    parse_template_no_bs (repl_no_char_parts (by decide) (by decide) hb)
  have hp3 : parse_template ("- Tag: `" ++ tag ++ "`").data =
      .ok (("- Tag: `" ++ tag ++ "`").data.map TmplPiece.lit) :=
    parse_template_no_bs (repl_no_char_parts (by decide) (by decide) hb)
  have hp4 : parse_template ("git rev-parse --verify " ++ tag).data =
      .ok (("git rev-parse --verify " ++ tag).data.map TmplPiece.lit) :=
    parse_template_no_bs (repl_no_char_two (by decide) hb)
  rw [update_readme_release_refs.eq_def, hp1, hp2, hp3, hp4]
  simp only []
  rw [refsPassT_lit, refsPassT_lit, refsPassT_lit, refsPassT_lit,
    refs_passes_fused readme tag hn]

/-! ### C8: idempotence of the README reference rewrite -/

/-- C8 counterexample: with a tag containing a newline, the replacement text
spans two lines and the second run rewrites the freshly created line again; a
tag containing backslash-n hits the same failure because template expansion
turns the escape into a real newline.  In both cases the first run succeeds,
the second run succeeds, and the two outputs differ, so the rewrite is not
idempotent for every tag. -/
theorem c8_counterexample :
    exceptSat (fun o1 => exceptSat (fun o2 => decide (o2 ≠ o1))
        (update_readme_release_refs o1 "A\n> Latest release: **B"))
      (update_readme_release_refs "> Latest release: **x**"
        "A\n> Latest release: **B") = true ∧
    exceptSat (fun o1 => exceptSat (fun o2 => decide (o2 ≠ o1))
        (update_readme_release_refs o1 "A\\n> Latest release: **B"))
      (update_readme_release_refs "> Latest release: **x**"
        "A\\n> Latest release: **B") = true := by
  constructor
  · decide
  · decide

/-- C8 amended: for every README and every tag containing neither a newline
nor a backslash (so the replacement templates are literal), the rewrite
succeeds and acts line by line (the composite of the four full-line rules),
lines matching none of the four patterns are untouched, and applying the
rewrite again to any successful output returns that output unchanged. -/
theorem c8_refs_idempotent : ∀ (readme tag : String), '\n' ∉ tag.data → '\\' ∉ tag.data →
    update_readme_release_refs readme tag =
      .ok (String.mk (joinNl ((splitNl readme.data).map (lineStep tag)))) ∧
    (∀ line : List Char,
      lineHit "> Latest release: **".data "**".data line = false →
      lineHit "- Latest release: **".data "**".data line = false →
      lineHit "- Tag: `".data "`".data line = false →
      lineHit "git rev-parse --verify ".data [] line = false →
      lineStep tag line = line) ∧
    (∀ out : String, update_readme_release_refs readme tag = .ok out →
      update_readme_release_refs out tag = .ok out) := by
  intro readme tag hn hb
  refine ⟨refs_fused readme tag hn hb, ?_, ?_⟩
  · intro line m1 m2 m3 m4
    rw [lineStep, lineRule_miss m1, lineRule_miss m2, lineRule_miss m3, lineRule_miss m4]
  · intro out hout
    rw [refs_fused readme tag hn hb] at hout
    injection hout with hto
    subst hto
    rw [refs_fused _ tag hn hb]
    have hne : (splitNl readme.data).map (lineStep tag) ≠ [] := fun hh =>
      splitNl_ne_nil readme.data (List.map_eq_nil_iff.mp hh)
    have hnl : ∀ x ∈ (splitNl readme.data).map (lineStep tag), '\n' ∉ x := by
      intro x hx
      obtain ⟨y, hy, rfl⟩ := List.mem_map.mp hx
      exact lineStep_no_nl tag hn (splitNl_no_nl _ y hy)
    rw [string_data_mk, splitNl_joinNl hne hnl, List.map_map]
    have hmap : ((splitNl readme.data).map (lineStep tag ∘ lineStep tag)) =
        (splitNl readme.data).map (lineStep tag) := by
      apply List.map_congr_left
      intro a _
      exact lineStep_idem tag a
    rw [hmap]

/-- Witness for C8 on a concrete README and tag. -/
theorem c8_witness :
    update_readme_release_refs "> Latest release: **v0.1.0**\nplain" "v2.0.0" =
      .ok (String.mk (joinNl ((splitNl "> Latest release: **v0.1.0**\nplain".data).map
        (lineStep "v2.0.0")))) ∧
    (∀ line : List Char,
      lineHit "> Latest release: **".data "**".data line = false →
      lineHit "- Latest release: **".data "**".data line = false →
      lineHit "- Tag: `".data "`".data line = false →
      lineHit "git rev-parse --verify ".data [] line = false →
      lineStep "v2.0.0" line = line) ∧
    (∀ out : String,
      update_readme_release_refs "> Latest release: **v0.1.0**\nplain" "v2.0.0" = .ok out →
      update_readme_release_refs out "v2.0.0" = .ok out) :=
  c8_refs_idempotent "> Latest release: **v0.1.0**\nplain" "v2.0.0" (by decide) (by decide)

/-! ### C6: check mode -/

/-- C6: in check mode a completed run returns the input files untouched (no
write happens), and it exits 0 exactly when the normal-mode run on the same
inputs would be a no-op, i.e. when every candidate rewritten document equals
its original. -/
theorem c6_check_mode : ∀ (args : CliArgs) (today : String) (files : ReleaseFiles)
    (code : Nat) (files' : ReleaseFiles),
    args.check = true →
    mainRun args today files = .ok (code, files') →
    files' = files ∧
    (code = 0 ↔ mainRun { args with check := false } today files = .ok (0, files)) := by
  intro args today files code files' h1 h2
  obtain ⟨atag, adate, acheck⟩ := args
  obtain ⟨fc, fr, fw⟩ := files
  have h1' : acheck = true := h1
  subst h1'
  simp only [mainRun] at h2 ⊢
  rcases hn : normalize_tag atag with e | tag
  · simp only [hn] at h2
    exact Except.noConfusion h2
  · simp only [hn] at h2 ⊢
    rcases hx : extract_changelog_section
        (if has_changelog_section fc tag then fc
         else add_changelog_section fc tag (pyOrElse adate today)) tag with e | sec
    · simp only [hx] at h2
      exact Except.noConfusion h2
    · simp only [hx] at h2 ⊢
      rcases hr : update_readme_release_refs fr tag with e | r1
      · simp only [hr] at h2
        exact Except.noConfusion h2
      · simp only [hr] at h2 ⊢
        rcases hu : upsert_readme_summary r1 tag (summarize_section sec 5) with e | r2
        · simp only [hu] at h2
          exact Except.noConfusion h2
        · simp only [hu] at h2 ⊢
          rcases hb : rebuild_readme_changelog_summaries r2
              (if has_changelog_section fc tag then fc
               else add_changelog_section fc tag (pyOrElse adate today)) tag 3 with e | r3
          · simp only [hb] at h2
            exact Except.noConfusion h2
          · simp only [hb] at h2 ⊢
            rcases hw : update_welcome_tour_release_page fw tag
                ((summarize_section sec 5).take 4)
                (previous_release_tag
                  (if has_changelog_section fc tag then fc
                   else add_changelog_section fc tag (pyOrElse adate today)) tag) with e | w2
            · simp only [hw] at h2
              exact Except.noConfusion h2
            · simp only [hw] at h2 ⊢
              rw [if_neg (show ¬(false = true) by decide)]
              by_cases hd : ((if has_changelog_section fc tag then fc
                  else add_changelog_section fc tag (pyOrElse adate today)) ≠ fc ∨
                  r3 ≠ fr ∨ w2 ≠ fw)
              · rw [if_pos hd] at h2
                rcases h2 with ⟨⟩
                refine ⟨rfl, ?_⟩
                constructor
                · intro h10
                  exact absurd h10 (by decide)
                · intro hrhs
                  simp only [Except.ok.injEq, Prod.mk.injEq, ReleaseFiles.mk.injEq,
                    true_and] at hrhs
                  rcases hd with hd | hd | hd
                  · exact absurd hrhs.1 hd
                  · exact absurd hrhs.2.1 hd
                  · exact absurd hrhs.2.2 hd
              · rw [if_neg hd] at h2
                rcases h2 with ⟨⟩
                push_neg at hd
                refine ⟨rfl, ?_⟩
                constructor
                · intro _
                  rw [hd.1, hd.2.1, hd.2.2]
                · intro _
                  rfl

/-- Witness for C6 on a concrete check-mode run (the sample README is out of
date, so the run reports drift with exit code 1 and leaves the files alone). -/
theorem c6_witness :
    filesSample = filesSample ∧
    (1 = 0 ↔ mainRun { argsSample with check := false } "2024-06-06" filesSample =
      .ok (0, filesSample)) :=
  c6_check_mode argsSample "2024-06-06" filesSample 1 filesSample rfl rfl
